import Mathlib

/-!
Verification of the dependency-analysis and code-generation engine of the
ouroboros self_referencing macro (src/ouroboros_macro/src/lib.rs), as a
shallow embedding.  The analysis-time functions (handle_borrows_attr,
create_actual_struct, make_with_functions, make_into_heads, deref_type,
replace_this_with_static) are translated into executable Lean definitions,
and the runtime behaviour of the generated constructor code (new,
try_new_or_recover) is modelled by interpreters whose control flow follows
the statement sequence emitted by create_builder_and_constructor and
create_try_builder_and_constructor line by line.
-/

/-- Mirror of the FieldType enum: the borrow role computed for every field.
Tail: not borrowed by any other field.  Borrowed: immutably borrowed by at
least one other field.  BorrowedMut: mutably borrowed by one other field. -/
inductive FieldType where
  | Tail
  | Borrowed
  | BorrowedMut
deriving DecidableEq

/-- Mirror of FieldType::is_tail. -/
def FieldType.is_tail (t : FieldType) : Bool := t == FieldType.Tail

/-- Mirror of BorrowRequest: one dependency edge, pointing at the index of
the borrowed field, with the requested mutability. -/
structure BorrowRequest where
  index : Nat
  mutable : Bool
deriving DecidableEq

/-- Punctuation tokens that occur in the token streams the engine
manipulates.  The apost constructor stands for the lifetime tick that
precedes a lifetime identifier in the proc_macro2 token model. -/
inductive PunctKind where
  | comma
  | colon
  | apost
  | amp
  | lt
  | gt
deriving DecidableEq

/-- Mirror of proc_macro2::TokenTree, restricted to the constructors the
engine inspects: identifiers are matched on, groups are recursed into, and
every other token is carried through unchanged. -/
inductive TokenTree where
  | ident (s : String)
  | punct (p : PunctKind)
  | lit (s : String)
  | group (ts : List TokenTree)

/-- Mirror of the syn::Type values the engine inspects.  deref_type only
ever asks whether the outermost type is Box with angle-bracketed
arguments; the refThis and refThisMut constructors record reference types
written with the symbolic this lifetime, and named covers every other
path type opaquely. -/
inductive RustType where
  | boxOf (inner : RustType)
  | refThis (inner : RustType)
  | refThisMut (inner : RustType)
  | named (s : String)
deriving DecidableEq

instance : Inhabited RustType := ⟨RustType.named ""⟩

/-- Token rendering of a type, as quote would emit it.  A lifetime is a
tick punct followed by an ident, which is exactly the shape
replace_this_with_static operates on. -/
def RustType.tokens : RustType → List TokenTree
  | RustType.boxOf inner =>
      [TokenTree.ident "Box", TokenTree.punct PunctKind.lt] ++ inner.tokens ++
        [TokenTree.punct PunctKind.gt]
  | RustType.refThis inner =>
      [TokenTree.punct PunctKind.amp, TokenTree.punct PunctKind.apost,
        TokenTree.ident "this"] ++ inner.tokens
  | RustType.refThisMut inner =>
      [TokenTree.punct PunctKind.amp, TokenTree.punct PunctKind.apost,
        TokenTree.ident "this", TokenTree.ident "mut"] ++ inner.tokens
  | RustType.named s => [TokenTree.ident s]

/-- Mirror of StructFieldInfo: the per-field record built by
create_actual_struct. -/
structure StructFieldInfo where
  name : String
  typ : RustType
  field_type : FieldType
  borrows : List BorrowRequest
deriving DecidableEq

instance : Inhabited StructFieldInfo :=
  ⟨⟨"", RustType.named "", FieldType.Tail, []⟩⟩

/-- Total list indexing with a default value, standing in for Rust slice
indexing at positions the source has already bounds-checked. -/
def getN [Inhabited α] : List α → Nat → α
  | [], _ => default
  | x :: _, 0 => x
  | _ :: xs, n + 1 => getN xs n

/-- Mirror of Iterator::position. -/
def position (p : α → Bool) : List α → Option Nat
  | [] => none
  | x :: xs => if p x then some 0 else (position p xs).map (· + 1)

/-- Tokens appearing inside the parentheses of a borrows attribute, as
handle_borrows_attr distinguishes them: identifiers, commas, any other
punctuation, and any other token kind. -/
inductive BorrowToken where
  | ident (s : String)
  | comma
  | otherPunct
  | otherToken
deriving DecidableEq

/-- Token list of a whole attribute argument: handle_borrows_attr looks
only at the first token and requires it to be a parenthesized group. -/
inductive AttrTok where
  | group (inner : List BorrowToken)
  | nonGroup
deriving DecidableEq

/-- Mirror of the parts of syn::Attribute that create_actual_struct
inspects: the path (leading colon flag and segment names) and the
argument tokens. -/
structure Attr where
  leading_colon : Bool
  segments : List String
  tokens : List AttrTok
deriving DecidableEq

/-- The analysis-time diagnostics, one constructor per Error::new in the
source, carrying the identifier the message interpolates where it does. -/
inductive MacroError where
  | invalidBorrowsSyntax
  | expectedComma
  | doubleMut
  | unknownIdentifier (name : String)
  | borrowMutAfterImmut (name : String)
  | borrowMutTwice (name : String)
  | immutAfterMut (name : String)
  | unexpectedExtraComma
  | unexpectedPunct
  | unexpectedToken
  | tupleStructsNotSupported
  | unitStructsNotSupported
  | atLeastTwoFields
  | allTailFields (firstFieldName : String)
  | chainHackNeedsBox
deriving DecidableEq

/-- The mutable state threaded through the token loop of
handle_borrows_attr: the two flags, the field table being mutated in
place, and the borrow list being accumulated. -/
structure BorrowParseState where
  borrow_mut : Bool
  waiting_for_comma : Bool
  field_info : List StructFieldInfo
  borrows : List BorrowRequest

/-- One iteration of the token loop of handle_borrows_attr. -/
def borrows_step (st : BorrowParseState) : BorrowToken → Except MacroError BorrowParseState
  | BorrowToken.ident istr =>
    if st.waiting_for_comma then Except.error MacroError.expectedComma
    else if istr == "mut" then
      if st.borrow_mut then Except.error MacroError.doubleMut
      else Except.ok { st with borrow_mut := true }
    else
      match position (fun item => item.name == istr) st.field_info with
      | none => Except.error (MacroError.unknownIdentifier istr)
      | some index =>
        if st.borrow_mut then
          if (getN st.field_info index).field_type == FieldType.Borrowed then
            Except.error (MacroError.borrowMutAfterImmut istr)
          else if (getN st.field_info index).field_type == FieldType.BorrowedMut then
            Except.error (MacroError.borrowMutTwice istr)
          else
            Except.ok { st with
              field_info := st.field_info.set index
                { getN st.field_info index with field_type := FieldType.BorrowedMut },
              borrows := st.borrows ++ [⟨index, true⟩],
              waiting_for_comma := true,
              borrow_mut := false }
        else
          if (getN st.field_info index).field_type == FieldType.BorrowedMut then
            Except.error (MacroError.immutAfterMut istr)
          else
            Except.ok { st with
              field_info := st.field_info.set index
                { getN st.field_info index with field_type := FieldType.Borrowed },
              borrows := st.borrows ++ [⟨index, false⟩],
              waiting_for_comma := true,
              borrow_mut := false }
  | BorrowToken.comma =>
    if st.waiting_for_comma then Except.ok { st with waiting_for_comma := false }
    else Except.error MacroError.unexpectedExtraComma
  | BorrowToken.otherPunct => Except.error MacroError.unexpectedPunct
  | BorrowToken.otherToken => Except.error MacroError.unexpectedToken

/-- The token loop of handle_borrows_attr. -/
def handle_borrows_loop (st : BorrowParseState) :
    List BorrowToken → Except MacroError BorrowParseState
  | [] => Except.ok st
  | t :: ts =>
    match borrows_step st t with
    | Except.error e => Except.error e
    | Except.ok st2 => handle_borrows_loop st2 ts

/-- Mirror of handle_borrows_attr: the first attribute token must be a
parenthesized group (trailing tokens are ignored by the source, which
only calls next() once); its contents are fed through the token loop
starting from cleared flags and an empty borrow list.  Returns the
updated field table and the collected borrow requests. -/
def handle_borrows_attr (field_info : List StructFieldInfo) (attrTokens : List AttrTok) :
    Except MacroError (List StructFieldInfo × List BorrowRequest) :=
  match attrTokens with
  | AttrTok.group inner :: _ =>
    (match handle_borrows_loop ⟨false, false, field_info, []⟩ inner with
     | Except.error e => Except.error e
     | Except.ok st => Except.ok (st.field_info, st.borrows))
  | _ => Except.error MacroError.invalidBorrowsSyntax

/-- The attribute filter of create_actual_struct: no leading colon and a
single path segment equal to borrows. -/
def is_borrows_attr (a : Attr) : Bool :=
  !a.leading_colon && a.segments == ["borrows"]

/-- The attribute scan of create_actual_struct: the first matching
attribute is used. -/
def find_borrows_attr (attrs : List Attr) : Option Attr :=
  attrs.find? is_borrows_attr

/-- One declared field of the input struct, as received from syn. -/
structure NamedField where
  name : String
  typ : RustType
  attrs : List Attr

/-- Mirror of syn::Fields: named, unnamed (tuple struct) or unit. -/
inductive FieldsShape where
  | named (fields : List NamedField)
  | unnamed
  | unit

/-- Mirror of the parts of syn::ItemStruct the engine reads. -/
structure ItemStruct where
  name : String
  fieldsShape : FieldsShape

/-! Mutual-recursion implementation of replace_this_with_static: every
identifier token equal to this becomes static, groups are rewritten
recursively, and every other token is returned unchanged. -/
mutual

def replaceTok : TokenTree → TokenTree
  | TokenTree.ident s =>
      if s == "this" then TokenTree.ident "static" else TokenTree.ident s
  | TokenTree.punct p => TokenTree.punct p
  | TokenTree.lit s => TokenTree.lit s
  | TokenTree.group ts => TokenTree.group (replaceToks ts)

def replaceToks : List TokenTree → List TokenTree
  | [] => []
  | t :: ts => replaceTok t :: replaceToks ts

end

/-- Mirror of replace_this_with_static. -/
def replace_this_with_static (input : List TokenTree) : List TokenTree :=
  replaceToks input

/-! Checks that no identifier token equal to this occurs anywhere in a
token, at any nesting depth. -/
mutual

def noThisTok : TokenTree → Bool
  | TokenTree.ident s => !(s == "this")
  | TokenTree.punct _ => true
  | TokenTree.lit _ => true
  | TokenTree.group ts => noThisList ts

def noThisList : List TokenTree → Bool
  | [] => true
  | t :: ts => noThisTok t && noThisList ts

end

/-! Relation between an input token and an output token that holds
exactly when the output is the input with every this identifier (and
nothing else) rewritten to static, at any nesting depth. -/
mutual

def shapeTok : TokenTree → TokenTree → Bool
  | TokenTree.ident s, TokenTree.ident s2 =>
      if s == "this" then s2 == "static" else s2 == s
  | TokenTree.punct p, TokenTree.punct p2 => p == p2
  | TokenTree.lit s, TokenTree.lit s2 => s == s2
  | TokenTree.group ts, TokenTree.group ts2 => shapeToks ts ts2
  | _, _ => false

def shapeToks : List TokenTree → List TokenTree → Bool
  | [], [] => true
  | t :: ts, u :: us => shapeTok t u && shapeToks ts us
  | _, _ => false

end

/-- The identifier rewrite applied to a single name, as the token
transform does it when the name is rendered as one identifier token. -/
def replaceThisName (n : String) : String :=
  if n == "this" then "static" else n

/-- The field-processing loop of create_actual_struct: for each declared
field, the first borrows attribute (if any) is parsed against the table
of previously processed fields, then the field is appended with role
Tail and the parsed borrow list. -/
def process_fields_loop : List StructFieldInfo → List NamedField →
    Except MacroError (List StructFieldInfo)
  | acc, [] => Except.ok acc
  | acc, f :: rest =>
    match find_borrows_attr f.attrs with
    | none =>
        process_fields_loop (acc ++ [⟨f.name, f.typ, FieldType.Tail, []⟩]) rest
    | some attr =>
      match handle_borrows_attr acc attr.tokens with
      | Except.error e => Except.error e
      | Except.ok (acc2, borrows) =>
          process_fields_loop (acc2 ++ [⟨f.name, f.typ, FieldType.Tail, borrows⟩]) rest

/-- The structured output of create_actual_struct: the storage struct
definition after field reversal and this-to-static rewriting.  Each field
is kept as its (rewritten) name together with the rewritten token stream
of its declared type; this is the shape quote renders into the emitted
token stream. -/
structure ActualStruct where
  name : String
  fields : List (String × List TokenTree)

/-- Mirror of create_actual_struct: shape dispatch, per-field borrows
parsing, the two structural checks (at least two fields, at least one
non-tail field), then reversal of the field order and the this-to-static
rewrite over the whole definition, field names included. -/
def create_actual_struct (s : ItemStruct) :
    Except MacroError (ActualStruct × List StructFieldInfo) :=
  match s.fieldsShape with
  | FieldsShape.unnamed => Except.error MacroError.tupleStructsNotSupported
  | FieldsShape.unit => Except.error MacroError.unitStructsNotSupported
  | FieldsShape.named fields =>
    match process_fields_loop [] fields with
    | Except.error e => Except.error e
    | Except.ok field_info =>
      if field_info.length < 2 then Except.error MacroError.atLeastTwoFields
      else if field_info.all (fun f => f.field_type.is_tail) then
        Except.error (MacroError.allTailFields (getN field_info 0).name)
      else
        Except.ok
          (⟨replaceThisName s.name,
            (field_info.map (fun f =>
              (replaceThisName f.name, replace_this_with_static f.typ.tokens))).reverse⟩,
           field_info)

/-- Mirror of deref_type: under chain_hack the field type must be Box and
the content type is its argument; otherwise the content type is the
Deref target of the field type. -/
def deref_type (field_type : RustType) (do_chain_hack : Bool) :
    Except MacroError (List TokenTree) :=
  if do_chain_hack then
    match field_type with
    | RustType.boxOf inner => Except.ok inner.tokens
    | _ => Except.error MacroError.chainHackNeedsBox
  else
    Except.ok ([TokenTree.punct PunctKind.lt] ++ field_type.tokens ++
      [TokenTree.ident "as", TokenTree.ident "Deref", TokenTree.punct PunctKind.gt,
        TokenTree.punct PunctKind.colon, TokenTree.punct PunctKind.colon,
        TokenTree.ident "Target"])

/-- The kinds of scoped accessors make_with_functions can emit. -/
inductive AccessorKind where
  | withRef
  | withMut
  | withContents
deriving DecidableEq

/-- One generated accessor: its function name, the field it serves, and
its kind. -/
structure Accessor where
  fn_name : String
  field_name : String
  kind : AccessorKind
deriving DecidableEq

/-- Mirror of make_with_functions: per field in declaration order, a Tail
field contributes the scoped shared and scoped mutable accessors, an
immutably borrowed field contributes only the contents accessor (after
deref_type succeeds on its type), and a mutably borrowed field
contributes nothing. -/
def make_with_functions (field_info : List StructFieldInfo) (do_chain_hack : Bool) :
    Except MacroError (List Accessor) :=
  match field_info with
  | [] => Except.ok []
  | f :: rest =>
    match f.field_type with
    | FieldType.Tail =>
      (match make_with_functions rest do_chain_hack with
       | Except.error e => Except.error e
       | Except.ok users =>
          Except.ok (⟨"with_" ++ f.name, f.name, AccessorKind.withRef⟩ ::
            ⟨"with_" ++ f.name ++ "_mut", f.name, AccessorKind.withMut⟩ :: users))
    | FieldType.Borrowed =>
      (match deref_type f.typ do_chain_hack with
       | Except.error e => Except.error e
       | Except.ok _ =>
         match make_with_functions rest do_chain_hack with
         | Except.error e => Except.error e
         | Except.ok users =>
            Except.ok (⟨"with_" ++ f.name ++ "_contents", f.name,
              AccessorKind.withContents⟩ :: users))
    | FieldType.BorrowedMut => make_with_functions rest do_chain_hack

/-- The accessor list a single field contributes, by role; used to state
that the generated surface is exactly determined by the roles. -/
def accessors_for (f : StructFieldInfo) : List Accessor :=
  match f.field_type with
  | FieldType.Tail =>
      [⟨"with_" ++ f.name, f.name, AccessorKind.withRef⟩,
        ⟨"with_" ++ f.name ++ "_mut", f.name, AccessorKind.withMut⟩]
  | FieldType.Borrowed =>
      [⟨"with_" ++ f.name ++ "_contents", f.name, AccessorKind.withContents⟩]
  | FieldType.BorrowedMut => []

/-- One statement of the generated into_heads body: either a move of a
head field into a local (later returned) or a mem::drop of a dependent
field.  The declaration index is recorded alongside the field name. -/
inductive HeadsStep where
  | take (index : Nat) (name : String)
  | dropField (index : Nat) (name : String)
deriving DecidableEq

/-- The output of make_into_heads: the Heads struct field list, the
generated statement sequence, and the names returned in the Heads value,
each in generation order. -/
structure IntoHeads where
  head_fields : List (String × RustType)
  steps : List HeadsStep
  returned : List (Nat × String)
deriving DecidableEq

/-- The loop of make_into_heads over the reversed (indexed) field list. -/
def make_into_heads_loop : List (Nat × StructFieldInfo) → IntoHeads
  | [] => ⟨[], [], []⟩
  | (i, f) :: rest =>
    let r := make_into_heads_loop rest
    if f.borrows.isEmpty then
      ⟨(f.name, f.typ) :: r.head_fields, HeadsStep.take i f.name :: r.steps,
        (i, f.name) :: r.returned⟩
    else
      ⟨r.head_fields, HeadsStep.dropField i f.name :: r.steps, r.returned⟩

/-- Mirror of make_into_heads: fields are visited in reverse declaration
order; a field with no borrows is moved out and returned, every other
field is dropped. -/
def make_into_heads (field_info : List StructFieldInfo) : IntoHeads :=
  make_into_heads_loop field_info.enum.reverse

/-- The statement a single indexed field contributes to the into_heads
body. -/
def intoHeadsStepFor (p : Nat × StructFieldInfo) : HeadsStep :=
  if p.2.borrows.isEmpty then HeadsStep.take p.1 p.2.name
  else HeadsStep.dropField p.1 p.2.name

/-- Argument supplied to the generated fallible constructors
(try_new / try_new_or_recover): a head field takes a plain value, a
self-referencing field takes a builder function from the borrowed values
to a Result. -/
inductive TryArg (V E : Type) where
  | plain (v : V)
  | builder (f : List V → Except E V)

instance [Inhabited V] : Inhabited (TryArg V E) := ⟨TryArg.plain default⟩

/-- The plain value of an argument (head fields only; the builder case is
unreachable for well-formed calls and returns the default). -/
def TryArg.plainVal [Inhabited V] : TryArg V E → V
  | TryArg.plain v => v
  | TryArg.builder _ => default

/-- The builder function of an argument (self-referencing fields only;
the plain case is unreachable for well-formed calls). -/
def TryArg.builderFn : TryArg V E → (List V → Except E V)
  | TryArg.builder f => f
  | TryArg.plain v => fun _ => Except.ok v

def TryArg.isPlain : TryArg V E → Bool
  | TryArg.plain _ => true
  | TryArg.builder _ => false

/-- Argument supplied to the generated eager constructor. -/
inductive EagerArg (V : Type) where
  | plain (v : V)
  | builder (f : List V → V)

instance [Inhabited V] : Inhabited (EagerArg V) := ⟨EagerArg.plain default⟩

def EagerArg.plainVal [Inhabited V] : EagerArg V → V
  | EagerArg.plain v => v
  | EagerArg.builder _ => default

def EagerArg.builderFn : EagerArg V → (List V → V)
  | EagerArg.builder f => f
  | EagerArg.plain v => fun _ => v

/-- Ownership-relevant events of one run of generated constructor code:
invoke i is the call of the builder function of field i, materialize i is
the raw-pointer write of the value of field i into its storage slot,
readOut i is the ptr::read of the materialized slot of head field i into
the recovered Heads value, and moveParam i is the direct move of the
still-unused plain parameter of head field i into the recovered Heads
value.  The generated failure path contains no drop statement, and the
MaybeUninit holding the storage has no drop glue, so no other release of
a materialized slot exists in the emitted code. -/
inductive CEv where
  | invoke (i : Nat)
  | materialize (i : Nat)
  | readOut (i : Nat)
  | moveParam (i : Nat)
deriving DecidableEq

def isMaterialize : CEv → Bool
  | CEv.materialize _ => true
  | _ => false

/-- The references handed to the builder function of a field: the stored
values of the fields it borrows, by index (the illegal static references
of the source, collapsed to values). -/
def refsFor [Inhabited V] (storage : List V) (borrows : List BorrowRequest) : List V :=
  borrows.map (fun b => getN storage b.index)

/-- The Heads value built by the error arm generated for a failing
builder: for each head field (in declaration order), the entry reads the
materialized slot when the field was already written (its declaration
index is below the storage length at the failure point, which is the
failing field index), and otherwise moves the untouched plain parameter.
This mirrors the head_recover_code vector of
create_try_builder_and_constructor, whose entries are switched from the
parameter form to the ptr::read form one by one as the plain fields are
materialized. -/
def headsRecover [Inhabited V] (storage : List V) :
    Nat → List (StructFieldInfo × TryArg V E) → List (String × V)
  | _, [] => []
  | j, (f, a) :: rest =>
    if f.borrows.isEmpty then
      (f.name, if j < storage.length then getN storage j else a.plainVal) ::
        headsRecover storage (j + 1) rest
    else
      headsRecover storage (j + 1) rest

/-- The ownership events of the recovery arm: one readOut per already
materialized head field, one moveParam per not yet materialized head
field. -/
def recoverEvents (k : Nat) : Nat → List (StructFieldInfo × TryArg V E) → List CEv
  | _, [] => []
  | j, (f, _) :: rest =>
    if f.borrows.isEmpty then
      (if j < k then CEv.readOut j else CEv.moveParam j) :: recoverEvents k (j + 1) rest
    else
      recoverEvents k (j + 1) rest

/-- Interpreter for the statement sequence generated by
create_try_builder_and_constructor for try_new_or_recover: fields are
processed in declaration order; a head field writes its plain parameter
into the next storage slot; a self-referencing field calls its builder on
the references to its borrow targets and either writes the result or
returns the error paired with the recovered Heads value.  The trace
records the ownership events in program order. -/
def tnorLoop [Inhabited V] (allPairs : List (StructFieldInfo × TryArg V E)) :
    List (StructFieldInfo × TryArg V E) → List V → List CEv →
    List CEv × Except (E × List (String × V)) (List V)
  | [], storage, acc => (acc, Except.ok storage)
  | (f, a) :: rest, storage, acc =>
    if f.borrows.isEmpty then
      tnorLoop allPairs rest (storage ++ [a.plainVal])
        (acc ++ [CEv.materialize storage.length])
    else
      match a.builderFn (refsFor storage f.borrows) with
      | Except.ok v =>
          tnorLoop allPairs rest (storage ++ [v])
            (acc ++ [CEv.invoke storage.length, CEv.materialize storage.length])
      | Except.error e =>
          (acc ++ [CEv.invoke storage.length] ++ recoverEvents storage.length 0 allPairs,
           Except.error (e, headsRecover storage 0 allPairs))

/-- The generated try_new_or_recover: on success the list of stored field
values in declaration order, on failure the error together with the
recovered Heads entries. -/
def try_new_or_recover [Inhabited V] (fields : List StructFieldInfo)
    (args : List (TryArg V E)) : Except (E × List (String × V)) (List V) :=
  (tnorLoop (fields.zip args) (fields.zip args) [] []).2

/-- The ownership-event trace of one run of the generated
try_new_or_recover. -/
def try_new_or_recover_trace [Inhabited V] (fields : List StructFieldInfo)
    (args : List (TryArg V E)) : List CEv :=
  (tnorLoop (fields.zip args) (fields.zip args) [] []).1

/-- The generated try_new: try_new_or_recover with the recovered heads
discarded from the error. -/
def try_new [Inhabited V] (fields : List StructFieldInfo)
    (args : List (TryArg V E)) : Except E (List V) :=
  match try_new_or_recover fields args with
  | Except.ok v => Except.ok v
  | Except.error (e, _) => Except.error e

/-- Interpreter for the statement sequence generated by
create_builder_and_constructor for new: identical materialization order,
with total builder functions. -/
def newLoop [Inhabited V] : List (StructFieldInfo × EagerArg V) → List V → List CEv →
    List CEv × List V
  | [], storage, acc => (acc, storage)
  | (f, a) :: rest, storage, acc =>
    if f.borrows.isEmpty then
      newLoop rest (storage ++ [a.plainVal]) (acc ++ [CEv.materialize storage.length])
    else
      newLoop rest (storage ++ [a.builderFn (refsFor storage f.borrows)])
        (acc ++ [CEv.invoke storage.length, CEv.materialize storage.length])

/-- The generated new constructor: the stored field values in declaration
order. -/
def new_constructor [Inhabited V] (fields : List StructFieldInfo)
    (args : List (EagerArg V)) : List V :=
  (newLoop (fields.zip args) [] []).2

/-- The ownership-event trace of one run of the generated new. -/
def new_constructor_trace [Inhabited V] (fields : List StructFieldInfo)
    (args : List (EagerArg V)) : List CEv :=
  (newLoop (fields.zip args) [] []).1

/-- The head entries (name and plain argument value) of a zipped
field/argument list, in declaration order: the value the recovery path
is expected to return for every head field. -/
def heads_of [Inhabited V] (pairs : List (StructFieldInfo × TryArg V E)) :
    List (String × V) :=
  (pairs.filter (fun p => p.1.borrows.isEmpty)).map (fun p => (p.1.name, p.2.plainVal))

/-- The head set the claim under test predicts for a failure at field
index k: only the head fields declared strictly before k. -/
def heads_declared_before [Inhabited V] (pairs : List (StructFieldInfo × TryArg V E))
    (k : Nat) : List (String × V) :=
  heads_of (pairs.take k)

/-- Number of release events (readOut) for the storage slot of field i in
a trace.  The generated failure path emits no drop of any storage slot
(the storage lives in a MaybeUninit, which has no drop glue, and the
error arm is a plain early return), so ptr::read into the recovered
Heads value is the only way a materialized slot is ever released there. -/
def releaseCount (trace : List CEv) (i : Nat) : Nat :=
  (trace.filter (fun e => e == CEv.readOut i)).length

/-- Restrictiveness order on roles: Tail is below everything, the two
borrowed roles are final.  This is the monotonicity the single
left-to-right pass relies on. -/
def roleLE : FieldType → FieldType → Bool
  | FieldType.Tail, _ => true
  | a, b => a == b

/-- The field list of the storage struct as the claim under test renders
it: the this marker rewritten only inside the declared types, field
names untouched. -/
def storage_fields_claim (info : List StructFieldInfo) : List (String × List TokenTree) :=
  (info.map (fun f => (f.name, replace_this_with_static f.typ.tokens))).reverse

/-- The drop statements of an into_heads body, with their indices. -/
def dropName : HeadsStep → Option (Nat × String)
  | HeadsStep.dropField i n => some (i, n)
  | HeadsStep.take _ _ => none

/-- The field info computed for a struct, or the empty list if the
schema is rejected. -/
def infoOf (s : ItemStruct) : List StructFieldInfo :=
  match create_actual_struct s with
  | Except.ok (_, info) => info
  | Except.error _ => []

/-- The storage struct computed for a struct, or an empty placeholder if
the schema is rejected. -/
def actualOf (s : ItemStruct) : ActualStruct :=
  match create_actual_struct s with
  | Except.ok (a, _) => a
  | Except.error _ => ⟨"", []⟩

/-- Whether analysis accepted the schema. -/
def acceptedB (s : ItemStruct) : Bool :=
  match create_actual_struct s with
  | Except.ok _ => true
  | Except.error _ => false

/-- A borrows attribute with the given inner tokens. -/
def mkBorrowsAttr (inner : List BorrowToken) : Attr :=
  ⟨false, ["borrows"], [AttrTok.group inner]⟩

/-- Field list of the first example schema: a is a head (borrowed by b),
b is self-referencing, c is a trailing head. -/
def exFields1 : List NamedField :=
  [⟨"a", RustType.boxOf (RustType.named "i32"), []⟩,
   ⟨"b", RustType.refThis (RustType.named "i32"),
     [mkBorrowsAttr [BorrowToken.ident "a"]]⟩,
   ⟨"c", RustType.named "i32", []⟩]

/-- Example schema built from exFields1.  Used against the recovery
claims. -/
def exStruct1 : ItemStruct := ⟨"Ex1", FieldsShape.named exFields1⟩

/-- Arguments for exStruct1: the builder of b fails with error 9. -/
def exArgs1 : List (TryArg Nat Nat) :=
  [TryArg.plain 1, TryArg.builder (fun _ => Except.error 9), TryArg.plain 7]

/-- Example schema: b and c both borrow a immutably. -/
def exStruct2 : ItemStruct :=
  ⟨"Ex2", FieldsShape.named
    [⟨"a", RustType.boxOf (RustType.named "i32"), []⟩,
     ⟨"b", RustType.refThis (RustType.named "i32"),
       [mkBorrowsAttr [BorrowToken.ident "a"]]⟩,
     ⟨"c", RustType.refThis (RustType.named "i32"),
       [mkBorrowsAttr [BorrowToken.ident "a"]]⟩]⟩

/-- Arguments for exStruct2: the builder of b succeeds with value 2, the
builder of c fails with error 9, so b is materialized before the
failure. -/
def exArgs2 : List (TryArg Nat Nat) :=
  [TryArg.plain 1, TryArg.builder (fun _ => Except.ok 2),
   TryArg.builder (fun _ => Except.error 9)]

/-- The concrete scenario of the spec: c borrows a immutably and b
mutably, so the roles come out a Borrowed, b BorrowedMut, c Tail. -/
def exStruct6 : ItemStruct :=
  ⟨"Ex6", FieldsShape.named
    [⟨"a", RustType.boxOf (RustType.named "i32"), []⟩,
     ⟨"b", RustType.boxOf (RustType.named "f32"), []⟩,
     ⟨"c", RustType.named "C",
       [mkBorrowsAttr [BorrowToken.ident "a", BorrowToken.comma,
         BorrowToken.ident "mut", BorrowToken.ident "b"]]⟩]⟩

/-- Field list of a schema with a field literally named this, borrowed
by b. -/
def exFields8 : List NamedField :=
  [⟨"this", RustType.boxOf (RustType.named "i32"), []⟩,
   ⟨"b", RustType.refThis (RustType.named "i32"),
     [mkBorrowsAttr [BorrowToken.ident "this"]]⟩]

/-- Example schema with a field literally named this, borrowed by b. -/
def exStruct8 : ItemStruct := ⟨"Ex8", FieldsShape.named exFields8⟩

/-- Example schema whose third field carries a borrows attribute whose
only token is a dangling mut marker. -/
def exStruct10 : ItemStruct :=
  ⟨"Ex10", FieldsShape.named
    [⟨"a", RustType.boxOf (RustType.named "i32"), []⟩,
     ⟨"b", RustType.refThis (RustType.named "i32"),
       [mkBorrowsAttr [BorrowToken.ident "a"]]⟩,
     ⟨"c", RustType.named "i32", [mkBorrowsAttr [BorrowToken.ident "mut"]]⟩]⟩

/-- A one-entry field table holding a Tail field named a. -/
def exFieldInfoA : List StructFieldInfo :=
  [⟨"a", RustType.boxOf (RustType.named "i32"), FieldType.Tail, []⟩]

/-- The same table after a is resolved as an immutable borrow target. -/
def exFieldInfoA1 : List StructFieldInfo :=
  [⟨"a", RustType.boxOf (RustType.named "i32"), FieldType.Borrowed, []⟩]

/-- Eager arguments for exStruct1. -/
def exEagerArgs1 : List (EagerArg Nat) :=
  [EagerArg.plain 1, EagerArg.builder (fun refs => getN refs 0 + 10), EagerArg.plain 7]

/-- A tuple struct input. -/
def exStructUnnamed : ItemStruct := ⟨"Tup", FieldsShape.unnamed⟩

/-- A unit struct input. -/
def exStructUnit : ItemStruct := ⟨"Unit", FieldsShape.unit⟩

/-- A one-field struct input. -/
def exStructOne : ItemStruct :=
  ⟨"One", FieldsShape.named [⟨"a", RustType.named "i32", []⟩]⟩

/-- A two-field struct input with no dependency declarations. -/
def exStructTwoTails : ItemStruct :=
  ⟨"Two", FieldsShape.named
    [⟨"a", RustType.named "i32", []⟩, ⟨"b", RustType.named "u32", []⟩]⟩

/-- The field table computed for exStructTwoTails. -/
def exInfoTwoTails : List StructFieldInfo :=
  [⟨"a", RustType.named "i32", FieldType.Tail, []⟩,
   ⟨"b", RustType.named "u32", FieldType.Tail, []⟩]

/-! List plumbing lemmas for the total indexing function and the
position scan. -/

theorem getN_of_get? [Inhabited α] (l : List α) :
    ∀ (i : Nat) (a : α), l.get? i = some a → getN l i = a := by
  induction l with
  | nil => intro i a h; simp at h
  | cons x xs ih =>
    intro i a h
    cases i with
    | zero =>
      simp at h
      simpa [getN] using h
    | succ n => exact ih n a h

theorem get?_of_getN [Inhabited α] (l : List α) :
    ∀ (i : Nat), i < l.length → l.get? i = some (getN l i) := by
  induction l with
  | nil => intro i h; simp at h
  | cons x xs ih =>
    intro i h
    cases i with
    | zero => rfl
    | succ n => exact ih n (Nat.lt_of_succ_lt_succ h)

theorem getN_append_lt [Inhabited α] (l l2 : List α) :
    ∀ (i : Nat), i < l.length → getN (l ++ l2) i = getN l i := by
  induction l with
  | nil => intro i h; simp at h
  | cons x xs ih =>
    intro i h
    cases i with
    | zero => rfl
    | succ n => exact ih n (Nat.lt_of_succ_lt_succ h)

theorem getN_append_len [Inhabited α] (l l2 : List α) (x : α) :
    getN (l ++ x :: l2) l.length = x := by
  induction l with
  | nil => rfl
  | cons y ys ih => exact ih

theorem getN_set_eq [Inhabited α] (l : List α) :
    ∀ (i : Nat) (a : α), i < l.length → getN (l.set i a) i = a := by
  induction l with
  | nil => intro i a h; simp at h
  | cons x xs ih =>
    intro i a h
    cases i with
    | zero => rfl
    | succ n => exact ih n a (Nat.lt_of_succ_lt_succ h)

theorem getN_set_ne [Inhabited α] (l : List α) :
    ∀ (i j : Nat) (a : α), i ≠ j → getN (l.set i a) j = getN l j := by
  induction l with
  | nil => intro i j a _; cases i <;> rfl
  | cons x xs ih =>
    intro i j a h
    cases i with
    | zero =>
      cases j with
      | zero => exact absurd rfl h
      | succ m => rfl
    | succ n =>
      cases j with
      | zero => rfl
      | succ m => exact ih n m a (fun hh => h (by rw [hh]))

theorem position_lt (p : α → Bool) :
    ∀ (l : List α) (i : Nat), position p l = some i → i < l.length := by
  intro l
  induction l with
  | nil => intro i h; simp [position] at h
  | cons x xs ih =>
    intro i h
    unfold position at h
    by_cases hp : p x
    · rw [if_pos hp] at h
      cases h
      exact Nat.succ_pos _
    · rw [if_neg hp] at h
      match hmap : position p xs with
      | none => rw [hmap] at h; simp at h
      | some j =>
        rw [hmap] at h
        simp at h
        subst h
        exact Nat.succ_lt_succ (ih j hmap)

theorem sublist_pair_of_get? :
    ∀ (l : List α) (p q : Nat) (a b : α), p < q →
      l.get? p = some a → l.get? q = some b → List.Sublist [a, b] l := by
  intro l
  induction l with
  | nil => intro p q a b _ ha _; simp at ha
  | cons x xs ih =>
    intro p q a b hpq ha hb
    cases p with
    | zero =>
      obtain ⟨q2, rfl⟩ : ∃ q2, q = q2 + 1 := ⟨q - 1, by omega⟩
      have hax : x = a := by simpa using ha
      have hbmem : b ∈ xs := List.get?_mem hb
      subst hax
      exact List.Sublist.cons₂ x (List.singleton_sublist.mpr hbmem)
    | succ p2 =>
      obtain ⟨q2, rfl⟩ : ∃ q2, q = q2 + 1 := ⟨q - 1, by omega⟩
      exact List.Sublist.cons x (ih p2 q2 a b (by omega) ha hb)

theorem roleLE_refl (a : FieldType) : roleLE a a = true := by
  cases a <;> rfl

theorem roleLE_trans (a b c : FieldType) :
    roleLE a b = true → roleLE b c = true → roleLE a c = true := by
  cases a <;> cases b <;> cases c <;> decide

theorem map_set_eq [Inhabited α] (l : List α) :
    ∀ (i : Nat) (a : α) (g : α → β), g a = g (getN l i) →
      (l.set i a).map g = l.map g := by
  induction l with
  | nil => intro i a g _; rfl
  | cons x xs ih =>
    intro i a g hg
    cases i with
    | zero => simpa [List.set, getN] using congrArg (fun z => z :: xs.map g) hg
    | succ n => simpa [List.set, getN] using congrArg (fun z => g x :: z) (ih n a g hg)


/-- Shape of every successful iteration of the borrows token loop: either
the field table and borrow list are untouched (comma, or the mut marker),
or the token was an identifier that resolved to index, one edge was
appended, and the role at index was raised to Borrowed or BorrowedMut
according to the pending mut flag.  The original role is recorded: it was
Tail whenever the mut flag was set, and Tail or Borrowed otherwise. -/
theorem borrows_step_ok_shape (st : BorrowParseState) (t : BorrowToken)
    (st2 : BorrowParseState) (h : borrows_step st t = Except.ok st2) :
    (st2.field_info = st.field_info ∧ st2.borrows = st.borrows ∧
      (t = BorrowToken.comma ∨ t = BorrowToken.ident "mut")) ∨
    (∃ index istr, t = BorrowToken.ident istr ∧
      position (fun item => item.name == istr) st.field_info = some index ∧
      st2.field_info = st.field_info.set index
        { getN st.field_info index with
            field_type := if st.borrow_mut then FieldType.BorrowedMut
              else FieldType.Borrowed } ∧
      st2.borrows = st.borrows ++ [⟨index, st.borrow_mut⟩] ∧
      (st.borrow_mut = true → (getN st.field_info index).field_type = FieldType.Tail) ∧
      ((getN st.field_info index).field_type = FieldType.Tail ∨
        (getN st.field_info index).field_type = FieldType.Borrowed)) := by
  cases t with
  | comma =>
    simp only [borrows_step] at h
    split at h
    · cases h; exact Or.inl ⟨rfl, rfl, Or.inl rfl⟩
    · exact absurd h (by simp)
  | otherPunct => exact absurd h (by simp [borrows_step])
  | otherToken => exact absurd h (by simp [borrows_step])
  | ident istr =>
    simp only [borrows_step] at h
    split at h
    · exact absurd h (by simp)
    · split at h
      · rename_i hmz
        split at h
        · exact absurd h (by simp)
        · cases h
          have hiz : istr = "mut" := by simpa using hmz
          exact Or.inl ⟨rfl, rfl, Or.inr (by rw [hiz])⟩
      · split at h
        · exact absurd h (by simp)
        · rename_i index hpos
          split at h
          · rename_i hbm
            split at h
            · exact absurd h (by simp)
            · split at h
              · exact absurd h (by simp)
              · rename_i hnb hnbm
                cases h
                refine Or.inr ⟨index, istr, rfl, hpos, by simp [hbm], by simp [hbm], ?_, ?_⟩
                · intro _
                  cases hrole : (getN st.field_info index).field_type
                  · rfl
                  · exact absurd (by simp [hrole]) hnb
                  · exact absurd (by simp [hrole]) hnbm
                · left
                  cases hrole : (getN st.field_info index).field_type
                  · rfl
                  · exact absurd (by simp [hrole]) hnb
                  · exact absurd (by simp [hrole]) hnbm
          · rename_i hbm
            split at h
            · exact absurd h (by simp)
            · rename_i hnbm
              cases h
              have hbmf : st.borrow_mut = false := by
                cases hb2 : st.borrow_mut
                · rfl
                · exact absurd (by simp [hb2]) hbm
              refine Or.inr ⟨index, istr, rfl, hpos, by simp [hbmf], by simp [hbmf], ?_, ?_⟩
              · intro hc; rw [hbmf] at hc; cases hc
              · cases hrole : (getN st.field_info index).field_type
                · exact Or.inl rfl
                · exact Or.inr rfl
                · exact absurd (by simp [hrole]) hnbm

theorem borrows_step_length (st : BorrowParseState) (t : BorrowToken)
    (st2 : BorrowParseState) (h : borrows_step st t = Except.ok st2) :
    st2.field_info.length = st.field_info.length := by
  rcases borrows_step_ok_shape st t st2 h with ⟨hf, _, _⟩ | ⟨i, s, _, _, hf, _⟩
  · rw [hf]
  · rw [hf]; exact List.length_set st.field_info i _

theorem borrows_step_proj (g : StructFieldInfo → β)
    (hg : ∀ (x : StructFieldInfo) (r : FieldType), g ⟨x.name, x.typ, r, x.borrows⟩ = g x)
    (st : BorrowParseState) (t : BorrowToken) (st2 : BorrowParseState)
    (h : borrows_step st t = Except.ok st2) :
    st2.field_info.map g = st.field_info.map g := by
  rcases borrows_step_ok_shape st t st2 h with ⟨hf, _, _⟩ | ⟨i, s, _, _, hf, _⟩
  · rw [hf]
  · rw [hf]
    exact map_set_eq st.field_info i _ g (hg (getN st.field_info i) _)

theorem borrows_step_roleLE (st : BorrowParseState) (t : BorrowToken)
    (st2 : BorrowParseState) (h : borrows_step st t = Except.ok st2) (j : Nat) :
    roleLE (getN st.field_info j).field_type (getN st2.field_info j).field_type = true := by
  rcases borrows_step_ok_shape st t st2 h with ⟨hf, _, _⟩ | ⟨i, s, _, hpos, hf, _, hmut, hold⟩
  · rw [hf]; exact roleLE_refl _
  · rw [hf]
    by_cases hij : i = j
    · subst hij
      rw [getN_set_eq _ _ _ (position_lt _ _ _ hpos)]
      rcases hold with h1 | h1 <;> rw [h1]
      · rfl
      · cases hb : st.borrow_mut
        · simp [roleLE]
        · have h2 := hmut hb
          rw [h1] at h2
          exact absurd h2 (by decide)
    · rw [getN_set_ne _ _ _ _ hij]; exact roleLE_refl _

theorem borrows_step_new_edges (st : BorrowParseState) (t : BorrowToken)
    (st2 : BorrowParseState) (h : borrows_step st t = Except.ok st2) :
    ∃ tail, st2.borrows = st.borrows ++ tail ∧
      (∀ b ∈ tail, b.index < st.field_info.length) ∧
      (∀ j, (getN st2.field_info j).field_type ≠ (getN st.field_info j).field_type →
        ∃ b ∈ tail, b.index = j) := by
  rcases borrows_step_ok_shape st t st2 h with ⟨hf, hb, _⟩ | ⟨i, s, _, hpos, hf, hb, _, _⟩
  · exact ⟨[], by simp [hb], by simp, fun j hj => absurd (by rw [hf]) hj⟩
  · refine ⟨[⟨i, st.borrow_mut⟩], hb, ?_, ?_⟩
    · intro b hbmem
      simp at hbmem
      rw [hbmem]
      exact position_lt _ _ _ hpos
    · intro j hj
      by_cases hij : i = j
      · exact ⟨⟨i, st.borrow_mut⟩, by simp, hij⟩
      · exact absurd (by rw [hf, getN_set_ne _ _ _ _ hij]) hj

theorem handle_borrows_loop_proj (g : StructFieldInfo → β)
    (hg : ∀ (x : StructFieldInfo) (r : FieldType), g ⟨x.name, x.typ, r, x.borrows⟩ = g x) :
    ∀ (ts : List BorrowToken) (st st2 : BorrowParseState),
      handle_borrows_loop st ts = Except.ok st2 →
      st2.field_info.map g = st.field_info.map g := by
  intro ts
  induction ts with
  | nil =>
    intro st st2 h
    cases h
    rfl
  | cons t ts ih =>
    intro st st2 h
    simp only [handle_borrows_loop] at h
    match hstep : borrows_step st t with
    | Except.error e => rw [hstep] at h; exact absurd h (by simp)
    | Except.ok stm =>
      rw [hstep] at h
      exact (ih stm st2 h).trans (borrows_step_proj g hg st t stm hstep)

theorem handle_borrows_loop_props :
    ∀ (ts : List BorrowToken) (st st2 : BorrowParseState),
      handle_borrows_loop st ts = Except.ok st2 →
      st2.field_info.length = st.field_info.length ∧
      (∀ j, roleLE (getN st.field_info j).field_type
        (getN st2.field_info j).field_type = true) ∧
      (∃ tail, st2.borrows = st.borrows ++ tail ∧
        (∀ b ∈ tail, b.index < st.field_info.length) ∧
        (∀ j, (getN st2.field_info j).field_type ≠ (getN st.field_info j).field_type →
          ∃ b ∈ tail, b.index = j)) := by
  intro ts
  induction ts with
  | nil =>
    intro st st2 h
    cases h
    exact ⟨rfl, fun j => roleLE_refl _, [], by simp, by simp, fun j hj => absurd rfl hj⟩
  | cons t ts ih =>
    intro st st2 h
    simp only [handle_borrows_loop] at h
    match hstep : borrows_step st t with
    | Except.error e => rw [hstep] at h; exact absurd h (by simp)
    | Except.ok stm =>
      rw [hstep] at h
      obtain ⟨hlen2, hrole2, tail2, hb2, hbnd2, hchg2⟩ := ih stm st2 h
      have hlen1 := borrows_step_length st t stm hstep
      obtain ⟨tail1, hb1, hbnd1, hchg1⟩ := borrows_step_new_edges st t stm hstep
      refine ⟨hlen2.trans hlen1, ?_, tail1 ++ tail2, ?_, ?_, ?_⟩
      · intro j
        exact roleLE_trans _ _ _ (borrows_step_roleLE st t stm hstep j) (hrole2 j)
      · rw [hb2, hb1, List.append_assoc]
      · intro b hbmem
        rcases List.mem_append.mp hbmem with hm | hm
        · exact hbnd1 b hm
        · exact (hlen1 ▸ hbnd2 b hm)
      · intro j hj
        by_cases hmid : (getN stm.field_info j).field_type
            = (getN st.field_info j).field_type
        · rw [← hmid] at hj
          obtain ⟨b, hbm, hbi⟩ := hchg2 j hj
          exact ⟨b, List.mem_append.mpr (Or.inr hbm), hbi⟩
        · obtain ⟨b, hbm, hbi⟩ := hchg1 j hmid
          exact ⟨b, List.mem_append.mpr (Or.inl hbm), hbi⟩

theorem handle_borrows_attr_props (field_info : List StructFieldInfo)
    (attrToks : List AttrTok) (fi2 : List StructFieldInfo)
    (borrows : List BorrowRequest)
    (h : handle_borrows_attr field_info attrToks = Except.ok (fi2, borrows)) :
    fi2.length = field_info.length ∧
    (∀ j, roleLE (getN field_info j).field_type (getN fi2 j).field_type = true) ∧
    (∀ b ∈ borrows, b.index < field_info.length) ∧
    (∀ j, (getN fi2 j).field_type ≠ (getN field_info j).field_type →
      ∃ b ∈ borrows, b.index = j) := by
  match attrToks with
  | [] => simp [handle_borrows_attr] at h
  | AttrTok.nonGroup :: rest => simp [handle_borrows_attr] at h
  | AttrTok.group inner :: rest =>
    simp only [handle_borrows_attr] at h
    match hloop : handle_borrows_loop ⟨false, false, field_info, []⟩ inner with
    | Except.error e => rw [hloop] at h; simp at h
    | Except.ok st =>
      rw [hloop] at h
      simp at h
      obtain ⟨hfi, hbr⟩ := h
      obtain ⟨hlen, hrole, tail, hb, hbnd, hchg⟩ :=
        handle_borrows_loop_props inner ⟨false, false, field_info, []⟩ st hloop
      have htail : borrows = tail := by rw [← hbr, hb]; simp
      subst hfi hbr htail
      exact ⟨hlen, hrole, hbnd, hchg⟩

theorem handle_borrows_attr_proj (g : StructFieldInfo → β)
    (hg : ∀ (x : StructFieldInfo) (r : FieldType), g ⟨x.name, x.typ, r, x.borrows⟩ = g x)
    (field_info : List StructFieldInfo) (attrToks : List AttrTok)
    (fi2 : List StructFieldInfo) (borrows : List BorrowRequest)
    (h : handle_borrows_attr field_info attrToks = Except.ok (fi2, borrows)) :
    fi2.map g = field_info.map g := by
  match attrToks with
  | [] => simp [handle_borrows_attr] at h
  | AttrTok.nonGroup :: rest => simp [handle_borrows_attr] at h
  | AttrTok.group inner :: rest =>
    simp only [handle_borrows_attr] at h
    match hloop : handle_borrows_loop ⟨false, false, field_info, []⟩ inner with
    | Except.error e => rw [hloop] at h; simp at h
    | Except.ok st =>
      rw [hloop] at h
      simp at h
      obtain ⟨hfi, _⟩ := h
      rw [← hfi]
      exact handle_borrows_loop_proj g hg inner ⟨false, false, field_info, []⟩ st hloop

theorem getN_ge [Inhabited α] : ∀ (l : List α) (j : Nat), l.length ≤ j → getN l j = default := by
  intro l
  induction l with
  | nil => intro j _; cases j <;> rfl
  | cons x xs ih =>
    intro j h
    cases j with
    | zero => simp at h
    | succ n => exact ih n (Nat.le_of_succ_le_succ h)

theorem map_eq_entry (g : α → β) (l1 l2 : List α) (h : l1.map g = l2.map g) :
    ∀ (i : Nat) (f2 : α), l2.get? i = some f2 →
      ∃ f1, l1.get? i = some f1 ∧ g f1 = g f2 := by
  intro i f2 h2
  have hmap : (l1.get? i).map g = (l2.get? i).map g := by
    rw [← List.get?_map, ← List.get?_map, h]
  rw [h2] at hmap
  match h1 : l1.get? i with
  | none => rw [h1] at hmap; simp at hmap
  | some f1 =>
    rw [h1] at hmap
    simp at hmap
    exact ⟨f1, rfl, hmap⟩

/-- The field-type projection invariance used with the proj lemmas: any
function reading only name, typ and borrows. -/
theorem proj_nameTyp_invariant :
    ∀ (x : StructFieldInfo) (r : FieldType),
      (fun f => (f.name, f.typ)) (⟨x.name, x.typ, r, x.borrows⟩ : StructFieldInfo)
        = (fun f => (f.name, f.typ)) x := by
  intro x r
  rfl

theorem proj_borrows_invariant :
    ∀ (x : StructFieldInfo) (r : FieldType),
      (fun f => f.borrows) (⟨x.name, x.typ, r, x.borrows⟩ : StructFieldInfo)
        = (fun f => f.borrows) x := by
  intro x r
  rfl

/-- Name and type of every processed field come from the declared field
list, with the accumulator as a prefix. -/
theorem process_fields_loop_nameTyp :
    ∀ (rest : List NamedField) (acc info : List StructFieldInfo),
      process_fields_loop acc rest = Except.ok info →
      info.map (fun f => (f.name, f.typ)) =
        acc.map (fun f => (f.name, f.typ)) ++ rest.map (fun f => (f.name, f.typ)) := by
  intro rest
  induction rest with
  | nil =>
    intro acc info h
    cases h
    simp
  | cons f fs ih =>
    intro acc info h
    simp only [process_fields_loop] at h
    match hfind : find_borrows_attr f.attrs with
    | none =>
      rw [hfind] at h
      have := ih _ info h
      rw [this]
      simp
    | some attr =>
      rw [hfind] at h
      dsimp only [] at h
      match hattr : handle_borrows_attr acc attr.tokens with
      | Except.error e => rw [hattr] at h; simp at h
      | Except.ok (acc2, borrows) =>
        rw [hattr] at h
        have hrec := ih _ info h
        have hacc2 := handle_borrows_attr_proj (fun f => (f.name, f.typ))
          proj_nameTyp_invariant acc attr.tokens acc2 borrows hattr
        rw [hrec]
        simp [hacc2]

theorem process_fields_loop_length :
    ∀ (rest : List NamedField) (acc info : List StructFieldInfo),
      process_fields_loop acc rest = Except.ok info →
      info.length = acc.length + rest.length := by
  intro rest acc info h
  have := congrArg List.length (process_fields_loop_nameTyp rest acc info h)
  simpa using this

/-- Every dependency edge of every processed field points strictly below
the declaration index of the field carrying it. -/
theorem process_fields_loop_edges :
    ∀ (rest : List NamedField) (acc info : List StructFieldInfo),
      process_fields_loop acc rest = Except.ok info →
      (∀ (i : Nat) (f : StructFieldInfo), acc.get? i = some f →
        ∀ b ∈ f.borrows, b.index < i) →
      (∀ (i : Nat) (f : StructFieldInfo), info.get? i = some f →
        ∀ b ∈ f.borrows, b.index < i) := by
  intro rest
  induction rest with
  | nil =>
    intro acc info h hacc
    cases h
    exact hacc
  | cons f fs ih =>
    intro acc info h hacc
    simp only [process_fields_loop] at h
    match hfind : find_borrows_attr f.attrs with
    | none =>
      rw [hfind] at h
      refine ih _ info h ?_
      intro i g hg b hb
      rcases Nat.lt_or_ge i acc.length with hi | hi
      · rw [List.get?_append hi] at hg
        exact hacc i g hg b hb
      · have hlen : i = acc.length := by
          have := hg
          by_contra hne
          have : acc.length + 1 ≤ i := by omega
          rw [List.get?_eq_none.mpr (by simpa using this)] at hg
          exact Option.noConfusion hg
        subst hlen
        rw [List.get?_concat_length] at hg
        cases hg
        simp at hb
    | some attr =>
      rw [hfind] at h
      dsimp only [] at h
      match hattr : handle_borrows_attr acc attr.tokens with
      | Except.error e => rw [hattr] at h; simp at h
      | Except.ok (acc2, borrows) =>
        rw [hattr] at h
        obtain ⟨hlen2, _, hbnd, _⟩ := handle_borrows_attr_props acc attr.tokens
          acc2 borrows hattr
        have hproj := handle_borrows_attr_proj (fun f => f.borrows)
          proj_borrows_invariant acc attr.tokens acc2 borrows hattr
        refine ih _ info h ?_
        intro i g hg b hb
        rcases Nat.lt_or_ge i acc2.length with hi | hi
        · rw [List.get?_append hi] at hg
          obtain ⟨g1, hg1, hgb⟩ := map_eq_entry (fun f => f.borrows) acc acc2 hproj.symm i g hg
          refine hacc i g1 hg1 b ?_
          simp only at hgb
          rw [hgb]
          exact hb
        · have hlen : i = acc2.length := by
            by_contra hne
            have : acc2.length + 1 ≤ i := by omega
            rw [List.get?_eq_none.mpr (by simpa using this)] at hg
            exact Option.noConfusion hg
          subst hlen
          rw [List.get?_concat_length] at hg
          cases hg
          simp only at hb
          rw [hlen2]
          exact hbnd b hb

/-- Every non-Tail role in the processed table is witnessed by an edge of
some processed field pointing at it. -/
theorem process_fields_loop_roleInv :
    ∀ (rest : List NamedField) (acc info : List StructFieldInfo),
      process_fields_loop acc rest = Except.ok info →
      (∀ j, (getN acc j).field_type ≠ FieldType.Tail →
        ∃ (i : Nat) (g : StructFieldInfo), acc.get? i = some g ∧
          ∃ b ∈ g.borrows, b.index = j) →
      (∀ j, (getN info j).field_type ≠ FieldType.Tail →
        ∃ (i : Nat) (g : StructFieldInfo), info.get? i = some g ∧
          ∃ b ∈ g.borrows, b.index = j) := by
  intro rest
  induction rest with
  | nil =>
    intro acc info h hacc
    cases h
    exact hacc
  | cons f fs ih =>
    intro acc info h hacc
    simp only [process_fields_loop] at h
    match hfind : find_borrows_attr f.attrs with
    | none =>
      rw [hfind] at h
      refine ih _ info h ?_
      intro j hj
      rcases Nat.lt_or_ge j acc.length with hij | hij
      · rw [getN_append_lt _ _ _ hij] at hj
        obtain ⟨i, g, hg, hb⟩ := hacc j hj
        refine ⟨i, g, ?_, hb⟩
        have hi : i < acc.length := (List.get?_eq_some.mp hg).1
        rw [List.get?_append hi]
        exact hg
      · rcases Nat.eq_or_lt_of_le hij with hij2 | hij2
        · rw [← hij2, getN_append_len] at hj
          simp at hj
        · rw [getN_ge] at hj
          · exact absurd rfl hj
          · simpa using hij2
    | some attr =>
      rw [hfind] at h
      dsimp only [] at h
      match hattr : handle_borrows_attr acc attr.tokens with
      | Except.error e => rw [hattr] at h; simp at h
      | Except.ok (acc2, borrows) =>
        rw [hattr] at h
        obtain ⟨hlen2, _, _, hchg⟩ := handle_borrows_attr_props acc attr.tokens
          acc2 borrows hattr
        have hproj := handle_borrows_attr_proj (fun f => f.borrows)
          proj_borrows_invariant acc attr.tokens acc2 borrows hattr
        refine ih _ info h ?_
        intro j hj
        rcases Nat.lt_or_ge j acc2.length with hij | hij
        · rw [getN_append_lt _ _ _ hij] at hj
          by_cases hsame : (getN acc2 j).field_type = (getN acc j).field_type
          · rw [hsame] at hj
            obtain ⟨i, g, hg, hb⟩ := hacc j hj
            obtain ⟨g2, hg2, hgb⟩ := map_eq_entry (fun f => f.borrows) acc2 acc
              hproj i g hg
            refine ⟨i, g2, ?_, ?_⟩
            · have hi : i < acc2.length := (List.get?_eq_some.mp hg2).1
              rw [List.get?_append hi]
              exact hg2
            · simp only at hgb
              rw [hgb]
              exact hb
          · obtain ⟨b, hbm, hbi⟩ := hchg j hsame
            refine ⟨acc2.length, ⟨f.name, f.typ, FieldType.Tail, borrows⟩, ?_, b, hbm, hbi⟩
            rw [List.get?_concat_length]
        · rcases Nat.eq_or_lt_of_le hij with hij2 | hij2
          · rw [← hij2, getN_append_len] at hj
            simp at hj
          · rw [getN_ge] at hj
            · exact absurd rfl hj
            · simpa using hij2

/-- Inversion of an accepted create_actual_struct run. -/
theorem create_actual_struct_ok (s : ItemStruct) (actual : ActualStruct)
    (info : List StructFieldInfo)
    (h : create_actual_struct s = Except.ok (actual, info)) :
    ∃ fields, s.fieldsShape = FieldsShape.named fields ∧
      process_fields_loop [] fields = Except.ok info ∧
      2 ≤ info.length ∧
      info.all (fun f => f.field_type.is_tail) = false ∧
      actual = ⟨replaceThisName s.name,
        (info.map (fun f =>
          (replaceThisName f.name, replace_this_with_static f.typ.tokens))).reverse⟩ := by
  unfold create_actual_struct at h
  match hshape : s.fieldsShape with
  | FieldsShape.unnamed => rw [hshape] at h; simp at h
  | FieldsShape.unit => rw [hshape] at h; simp at h
  | FieldsShape.named fields =>
    rw [hshape] at h
    dsimp only [] at h
    match hproc : process_fields_loop [] fields with
    | Except.error e => rw [hproc] at h; simp at h
    | Except.ok info2 =>
      rw [hproc] at h
      dsimp only [] at h
      split at h
      · simp at h
      · split at h
        · simp at h
        · rename_i hlen htail
          simp at h
          obtain ⟨hact, hinfo⟩ := h
          subst hinfo
          refine ⟨fields, rfl, hproc, by omega, ?_, hact.symm⟩
          cases hall : info2.all (fun f => f.field_type.is_tail)
          · rfl
          · exact absurd (by simp [hall]) htail

theorem borrows_step_unknown (st : BorrowParseState) (istr : String)
    (hw : st.waiting_for_comma = false) (hm : istr ≠ "mut")
    (hpos : position (fun item => item.name == istr) st.field_info = none) :
    borrows_step st (BorrowToken.ident istr)
      = Except.error (MacroError.unknownIdentifier istr) := by
  simp [borrows_step, hw, hm, hpos]

theorem borrows_step_mut_after_immut (st : BorrowParseState) (istr : String) (i : Nat)
    (hw : st.waiting_for_comma = false) (hm : istr ≠ "mut")
    (hbm : st.borrow_mut = true)
    (hpos : position (fun item => item.name == istr) st.field_info = some i)
    (hrole : (getN st.field_info i).field_type = FieldType.Borrowed) :
    borrows_step st (BorrowToken.ident istr)
      = Except.error (MacroError.borrowMutAfterImmut istr) := by
  simp [borrows_step, hw, hm, hbm, hpos, hrole]

theorem borrows_step_mut_twice (st : BorrowParseState) (istr : String) (i : Nat)
    (hw : st.waiting_for_comma = false) (hm : istr ≠ "mut")
    (hbm : st.borrow_mut = true)
    (hpos : position (fun item => item.name == istr) st.field_info = some i)
    (hrole : (getN st.field_info i).field_type = FieldType.BorrowedMut) :
    borrows_step st (BorrowToken.ident istr)
      = Except.error (MacroError.borrowMutTwice istr) := by
  simp [borrows_step, hw, hm, hbm, hpos, hrole]

theorem borrows_step_immut_after_mut (st : BorrowParseState) (istr : String) (i : Nat)
    (hw : st.waiting_for_comma = false) (hm : istr ≠ "mut")
    (hbm : st.borrow_mut = false)
    (hpos : position (fun item => item.name == istr) st.field_info = some i)
    (hrole : (getN st.field_info i).field_type = FieldType.BorrowedMut) :
    borrows_step st (BorrowToken.ident istr)
      = Except.error (MacroError.immutAfterMut istr) := by
  simp [borrows_step, hw, hm, hbm, hpos, hrole]

theorem borrows_step_resolve_ok (st : BorrowParseState) (istr : String)
    (st2 : BorrowParseState) (i : Nat)
    (hm : istr ≠ "mut")
    (hpos : position (fun item => item.name == istr) st.field_info = some i)
    (h : borrows_step st (BorrowToken.ident istr) = Except.ok st2) :
    (getN st2.field_info i).field_type =
      (if st.borrow_mut then FieldType.BorrowedMut else FieldType.Borrowed) ∧
    (st.borrow_mut = true → (getN st.field_info i).field_type = FieldType.Tail) ∧
    ((getN st.field_info i).field_type = FieldType.Tail ∨
      (getN st.field_info i).field_type = FieldType.Borrowed) ∧
    st2.borrows = st.borrows ++ [⟨i, st.borrow_mut⟩] := by
  rcases borrows_step_ok_shape st _ st2 h with ⟨hf, hb, htok⟩ |
    ⟨i2, s2, hts, hpos2, hf, hb, hmut, hold⟩
  · rcases htok with hc | hc
    · exact absurd hc (by simp)
    · cases hc
      exact absurd rfl hm
  · cases hts
    rw [hpos] at hpos2
    cases hpos2
    refine ⟨?_, hmut, hold, hb⟩
    rw [hf, getN_set_eq _ _ _ (position_lt _ _ _ hpos)]

/-- C4: during dependency parsing, resolving a mutable borrow of a field
whose role is already Borrowed fails with the mutable-after-immutable
diagnostic; resolving any further borrow (mutable or immutable) of a
field whose role is already BorrowedMut fails; a successful resolution
updates the target role in place to BorrowedMut or Borrowed according to
the pending mut flag, starting from Tail whenever the flag is set and
from Tail or Borrowed otherwise; and across every run of the token loop
the role table only moves up the restrictiveness order, never back. -/
theorem c4_role_transitions :
    (∀ (st : BorrowParseState) (istr : String) (i : Nat),
      st.waiting_for_comma = false → istr ≠ "mut" → st.borrow_mut = true →
      position (fun item => item.name == istr) st.field_info = some i →
      (getN st.field_info i).field_type = FieldType.Borrowed →
      borrows_step st (BorrowToken.ident istr)
        = Except.error (MacroError.borrowMutAfterImmut istr)) ∧
    (∀ (st : BorrowParseState) (istr : String) (i : Nat),
      st.waiting_for_comma = false → istr ≠ "mut" → st.borrow_mut = true →
      position (fun item => item.name == istr) st.field_info = some i →
      (getN st.field_info i).field_type = FieldType.BorrowedMut →
      borrows_step st (BorrowToken.ident istr)
        = Except.error (MacroError.borrowMutTwice istr)) ∧
    (∀ (st : BorrowParseState) (istr : String) (i : Nat),
      st.waiting_for_comma = false → istr ≠ "mut" → st.borrow_mut = false →
      position (fun item => item.name == istr) st.field_info = some i →
      (getN st.field_info i).field_type = FieldType.BorrowedMut →
      borrows_step st (BorrowToken.ident istr)
        = Except.error (MacroError.immutAfterMut istr)) ∧
    (∀ (st st2 : BorrowParseState) (istr : String) (i : Nat),
      istr ≠ "mut" →
      position (fun item => item.name == istr) st.field_info = some i →
      borrows_step st (BorrowToken.ident istr) = Except.ok st2 →
      (getN st2.field_info i).field_type =
        (if st.borrow_mut then FieldType.BorrowedMut else FieldType.Borrowed) ∧
      (st.borrow_mut = true → (getN st.field_info i).field_type = FieldType.Tail) ∧
      ((getN st.field_info i).field_type = FieldType.Tail ∨
        (getN st.field_info i).field_type = FieldType.Borrowed)) ∧
    (∀ (ts : List BorrowToken) (st st2 : BorrowParseState),
      handle_borrows_loop st ts = Except.ok st2 →
      ∀ j, roleLE (getN st.field_info j).field_type
        (getN st2.field_info j).field_type = true) := by
  refine ⟨?_, ?_, ?_, ?_, ?_⟩
  · intro st istr i hw hm hbm hpos hrole
    exact borrows_step_mut_after_immut st istr i hw hm hbm hpos hrole
  · intro st istr i hw hm hbm hpos hrole
    exact borrows_step_mut_twice st istr i hw hm hbm hpos hrole
  · intro st istr i hw hm hbm hpos hrole
    exact borrows_step_immut_after_mut st istr i hw hm hbm hpos hrole
  · intro st st2 istr i hm hpos h
    obtain ⟨h1, h2, h3, _⟩ := borrows_step_resolve_ok st istr st2 i hm hpos h
    exact ⟨h1, h2, h3⟩
  · intro ts st st2 h
    exact (handle_borrows_loop_props ts st st2 h).2.1

/-- Witness for C4 at concrete inputs: a mutable borrow of the already
immutably borrowed field a is rejected, and a successful immutable
resolution raises the role of a from Tail to Borrowed. -/
theorem c4_role_transitions_witness :
    borrows_step ⟨true, false, exFieldInfoA1, []⟩ (BorrowToken.ident "a")
      = Except.error (MacroError.borrowMutAfterImmut "a") ∧
    (getN exFieldInfoA1 0).field_type =
      (if (false : Bool) then FieldType.BorrowedMut else FieldType.Borrowed) :=
  ⟨c4_role_transitions.1 ⟨true, false, exFieldInfoA1, []⟩ "a" 0 rfl (by decide) rfl rfl rfl,
   (c4_role_transitions.2.2.2.1 ⟨false, false, exFieldInfoA, []⟩
      ⟨false, true, exFieldInfoA1, [⟨0, false⟩]⟩ "a" 0 (by decide) rfl rfl).1⟩

/-- C5: each dependency edge recorded for a field of an accepted schema
points at a strictly smaller declaration index (the parser resolves names
only against the previously processed fields, so self and forward
dependencies are impossible), and an identifier that resolves to no
previously declared field fails with the unknown-identifier
diagnostic. -/
theorem c5_backward_edges :
    (∀ (s : ItemStruct) (actual : ActualStruct) (info : List StructFieldInfo),
      create_actual_struct s = Except.ok (actual, info) →
      ∀ (i : Nat) (f : StructFieldInfo), info.get? i = some f →
        ∀ b ∈ f.borrows, b.index < i) ∧
    (∀ (st : BorrowParseState) (istr : String),
      st.waiting_for_comma = false → istr ≠ "mut" →
      position (fun item => item.name == istr) st.field_info = none →
      borrows_step st (BorrowToken.ident istr)
        = Except.error (MacroError.unknownIdentifier istr)) := by
  constructor
  · intro s actual info h i f hf b hb
    obtain ⟨fields, _, hproc, _, _, _⟩ := create_actual_struct_ok s actual info h
    refine process_fields_loop_edges fields [] info hproc ?_ i f hf b hb
    intro i2 f2 hf2
    simp at hf2
  · intro st istr hw hm hpos
    exact borrows_step_unknown st istr hw hm hpos

/-- Witness for C5: in the accepted schema exStruct1 the single edge of
field b (index 1) points at index 0, and an unknown identifier is
rejected. -/
theorem c5_backward_edges_witness :
    (0 < 1 ∧
     borrows_step ⟨false, false, exFieldInfoA, []⟩ (BorrowToken.ident "zz")
       = Except.error (MacroError.unknownIdentifier "zz")) :=
  ⟨c5_backward_edges.1 exStruct1 (actualOf exStruct1) (infoOf exStruct1) rfl 1
      ⟨"b", RustType.refThis (RustType.named "i32"), FieldType.Tail, [⟨0, false⟩]⟩ rfl
      ⟨0, false⟩ (by simp),
   c5_backward_edges.2 ⟨false, false, exFieldInfoA, []⟩ "zz" rfl (by decide) rfl⟩

/-- C9: structural validation rejects, emitting nothing: tuple structs
and unit structs each with their own diagnostic; every schema with fewer
than two fields; and every schema in which no field declares a
dependency, with the diagnostic naming the first field as the suggested
annotation target. -/
theorem c9_structural_validation :
    (∀ s, s.fieldsShape = FieldsShape.unnamed →
      create_actual_struct s = Except.error MacroError.tupleStructsNotSupported) ∧
    (∀ s, s.fieldsShape = FieldsShape.unit →
      create_actual_struct s = Except.error MacroError.unitStructsNotSupported) ∧
    (∀ (s : ItemStruct) (fields : List NamedField),
      s.fieldsShape = FieldsShape.named fields → fields.length < 2 →
      ∃ e, create_actual_struct s = Except.error e) ∧
    (∀ (s : ItemStruct) (fields : List NamedField) (info : List StructFieldInfo),
      s.fieldsShape = FieldsShape.named fields →
      process_fields_loop [] fields = Except.ok info →
      (∀ f ∈ info, f.borrows = []) → 2 ≤ info.length →
      create_actual_struct s
        = Except.error (MacroError.allTailFields (getN info 0).name)) := by
  refine ⟨?_, ?_, ?_, ?_⟩
  · intro s h
    unfold create_actual_struct
    rw [h]
  · intro s h
    unfold create_actual_struct
    rw [h]
  · intro s fields h hlen
    unfold create_actual_struct
    rw [h]
    dsimp only []
    match hproc : process_fields_loop [] fields with
    | Except.error e => exact ⟨e, rfl⟩
    | Except.ok info =>
      have hil : info.length = fields.length := by
        simpa using process_fields_loop_length fields [] info hproc
      refine ⟨MacroError.atLeastTwoFields, ?_⟩
      dsimp only []
      rw [if_pos (by omega)]
  · intro s fields info h hproc hborrows hlen
    have halltail : ∀ j, (getN info j).field_type = FieldType.Tail := by
      intro j
      by_contra hne
      obtain ⟨i, g, hg, b, hbm, _⟩ :=
        process_fields_loop_roleInv fields [] info hproc
          (by intro j2 hj2; exact absurd rfl hj2) j hne
      have hgmem : g ∈ info := List.get?_mem hg
      rw [hborrows g hgmem] at hbm
      simp at hbm
    have hall : info.all (fun f => f.field_type.is_tail) = true := by
      rw [List.all_eq_true]
      intro f hf
      obtain ⟨n, hn⟩ := List.mem_iff_get?.mp hf
      have := halltail n
      rw [getN_of_get? info n f hn] at this
      simp [FieldType.is_tail, this]
    unfold create_actual_struct
    rw [h]
    dsimp only []
    rw [hproc]
    dsimp only []
    rw [if_neg (by omega), if_pos hall]

/-- Witness for C9 at concrete inputs: the tuple and unit shapes, a
one-field schema, and a two-field schema without any dependency. -/
theorem c9_structural_validation_witness :
    create_actual_struct exStructUnnamed
      = Except.error MacroError.tupleStructsNotSupported ∧
    create_actual_struct exStructUnit
      = Except.error MacroError.unitStructsNotSupported ∧
    (∃ e, create_actual_struct exStructOne = Except.error e) ∧
    create_actual_struct exStructTwoTails
      = Except.error (MacroError.allTailFields (getN exInfoTwoTails 0).name) :=
  ⟨c9_structural_validation.1 exStructUnnamed rfl,
   c9_structural_validation.2.1 exStructUnit rfl,
   c9_structural_validation.2.2.1 exStructOne [⟨"a", RustType.named "i32", []⟩] rfl
     (by decide),
   c9_structural_validation.2.2.2 exStructTwoTails
     [⟨"a", RustType.named "i32", []⟩, ⟨"b", RustType.named "u32", []⟩]
     exInfoTwoTails rfl rfl (by decide) (by decide)⟩

mutual

theorem noThis_replaceTok : ∀ (t : TokenTree), noThisTok (replaceTok t) = true
  | TokenTree.ident s => by
    by_cases hs : (s == "this") = true
    · simp only [replaceTok, if_pos hs]
      decide
    · simp only [replaceTok, if_neg hs, noThisTok]
      simpa using hs
  | TokenTree.punct p => rfl
  | TokenTree.lit s => rfl
  | TokenTree.group ts => by
    simp only [replaceTok, noThisTok]
    exact noThis_replaceToks ts

theorem noThis_replaceToks : ∀ (ts : List TokenTree), noThisList (replaceToks ts) = true
  | [] => rfl
  | t :: ts => by
    simp only [replaceToks, noThisList]
    rw [noThis_replaceTok t, noThis_replaceToks ts]
    rfl

end

theorem shape_replace_ident (s : String) :
    shapeTok (TokenTree.ident s) (replaceTok (TokenTree.ident s)) = true := by
  by_cases hs : (s == "this") = true
  · have h1 : replaceTok (TokenTree.ident s) = TokenTree.ident "static" := by
      unfold replaceTok
      exact if_pos hs
    rw [h1]
    show (if (s == "this") = true then (("static" : String) == "static")
      else (("static" : String) == s)) = true
    rw [if_pos hs]
    decide
  · have h1 : replaceTok (TokenTree.ident s) = TokenTree.ident s := by
      unfold replaceTok
      exact if_neg hs
    rw [h1]
    show (if (s == "this") = true then ((s : String) == "static")
      else (s == s)) = true
    rw [if_neg hs]
    simp

theorem shape_replace_punct (p : PunctKind) :
    shapeTok (TokenTree.punct p) (replaceTok (TokenTree.punct p)) = true := by
  simp [replaceTok, shapeTok]

theorem shape_replace_lit (s : String) :
    shapeTok (TokenTree.lit s) (replaceTok (TokenTree.lit s)) = true := by
  simp [replaceTok, shapeTok]

mutual

theorem shape_replaceTok : ∀ (t : TokenTree), shapeTok t (replaceTok t) = true
  | TokenTree.ident s => shape_replace_ident s
  | TokenTree.punct p => shape_replace_punct p
  | TokenTree.lit s => shape_replace_lit s
  | TokenTree.group ts => by
    simp only [replaceTok, shapeTok]
    exact shape_replaceToks ts
termination_by t => sizeOf t

theorem shape_replaceToks : ∀ (ts : List TokenTree), shapeToks ts (replaceToks ts) = true
  | [] => rfl
  | t :: ts => by
    simp only [replaceToks, shapeToks]
    rw [shape_replaceTok t, shape_replaceToks ts]
    rfl
termination_by ts => sizeOf ts

end

/-- C8 (amended): the this-to-static rewrite over the storage struct
definition replaces every this identifier at any depth, leaving every
other token unchanged in place, and it is applied to the whole struct
definition: the emitted field list is the reversed declared field list
with the rewrite applied both to each declared type and to each field
name. -/
theorem c8_this_rewriting :
    (∀ (ts : List TokenTree),
      noThisList (replace_this_with_static ts) = true ∧
      shapeToks ts (replace_this_with_static ts) = true) ∧
    (∀ (s : ItemStruct) (fields : List NamedField) (actual : ActualStruct)
      (info : List StructFieldInfo),
      s.fieldsShape = FieldsShape.named fields →
      create_actual_struct s = Except.ok (actual, info) →
      actual.fields = ((fields.map (fun f =>
        (replaceThisName f.name, replace_this_with_static f.typ.tokens))).reverse)) := by
  constructor
  · intro ts
    exact ⟨noThis_replaceToks ts, shape_replaceToks ts⟩
  · intro s fields actual info hshape h
    obtain ⟨fields2, hshape2, hproc, _, _, hact⟩ := create_actual_struct_ok s actual info h
    rw [hshape] at hshape2
    injection hshape2 with hf
    subst hf
    have hnt : info.map (fun f => (f.name, f.typ))
        = fields.map (fun f => (f.name, f.typ)) := by
      simpa using process_fields_loop_nameTyp fields [] info hproc
    have e1 : info.map (fun f =>
          (replaceThisName f.name, replace_this_with_static f.typ.tokens))
        = (info.map (fun f => (f.name, f.typ))).map
            (fun p => (replaceThisName p.1, replace_this_with_static p.2.tokens)) := by
      rw [List.map_map]
      rfl
    have e2 : fields.map (fun f =>
          (replaceThisName f.name, replace_this_with_static f.typ.tokens))
        = (fields.map (fun f => (f.name, f.typ))).map
            (fun p => (replaceThisName p.1, replace_this_with_static p.2.tokens)) := by
      rw [List.map_map]
      rfl
    rw [hact]
    rw [e1, hnt, ← e2]

/-- Counterexample to C8 as stated: in exStruct8 the first declared field
is literally named this; the emitted storage struct renames that field to
static, whereas a rewrite confined to the declared types would keep the
field name. -/
theorem c8_field_name_rewritten :
    acceptedB exStruct8 = true ∧
    (actualOf exStruct8).fields.map Prod.fst = ["b", "static"] ∧
    (storage_fields_claim (infoOf exStruct8)).map Prod.fst = ["b", "this"] ∧
    (["b", "static"] : List String) ≠ ["b", "this"] :=
  ⟨rfl, rfl, rfl, by decide⟩

/-- Witness for C8 at concrete inputs: the rewrite of the token stream of
a reference type written with the this lifetime, and the emitted field
list of exStruct8. -/
theorem c8_this_rewriting_witness :
    (noThisList (replace_this_with_static
        (RustType.refThis (RustType.named "i32")).tokens) = true ∧
      shapeToks (RustType.refThis (RustType.named "i32")).tokens
        (replace_this_with_static
          (RustType.refThis (RustType.named "i32")).tokens) = true) ∧
    (actualOf exStruct8).fields = ((exFields8.map (fun f =>
      (replaceThisName f.name, replace_this_with_static f.typ.tokens))).reverse) :=
  ⟨c8_this_rewriting.1 (RustType.refThis (RustType.named "i32")).tokens,
   c8_this_rewriting.2 exStruct8 exFields8 (actualOf exStruct8) (infoOf exStruct8)
     rfl rfl⟩

/-- C6: the generated accessor surface is exactly determined by the
roles: a Tail field contributes its scoped shared accessor and scoped
mutable accessor, an immutably borrowed field contributes only its
contents accessor, and a mutably borrowed field contributes no accessor
at all, in declaration order. -/
theorem c6_accessor_surface :
    ∀ (info : List StructFieldInfo) (ch : Bool) (acc : List Accessor),
      make_with_functions info ch = Except.ok acc →
      acc = (info.map accessors_for).join := by
  intro info
  induction info with
  | nil =>
    intro ch acc h
    simp only [make_with_functions] at h
    cases h
    rfl
  | cons f rest ih =>
    intro ch acc h
    simp only [make_with_functions] at h
    match hft : f.field_type with
    | FieldType.Tail =>
      rw [hft] at h
      dsimp only [] at h
      match hrec : make_with_functions rest ch with
      | Except.error e => rw [hrec] at h; simp at h
      | Except.ok users =>
        rw [hrec] at h
        dsimp only [] at h
        cases h
        rw [ih ch users hrec]
        simp [accessors_for, hft]
    | FieldType.Borrowed =>
      rw [hft] at h
      dsimp only [] at h
      match hd : deref_type f.typ ch with
      | Except.error e => rw [hd] at h; simp at h
      | Except.ok dt =>
        rw [hd] at h
        dsimp only [] at h
        match hrec : make_with_functions rest ch with
        | Except.error e => rw [hrec] at h; simp at h
        | Except.ok users =>
          rw [hrec] at h
          dsimp only [] at h
          cases h
          rw [ih ch users hrec]
          simp [accessors_for, hft]
    | FieldType.BorrowedMut =>
      rw [hft] at h
      dsimp only [] at h
      rw [ih ch acc h]
      simp [accessors_for, hft]

/-- Witness for C6 at the concrete scenario of the spec: in exStruct6 the
roles come out a Borrowed, b BorrowedMut, c Tail, and the surface is
exactly the contents accessor of a plus the two scoped accessors of c,
with nothing for b. -/
theorem c6_accessor_surface_witness :
    acceptedB exStruct6 = true ∧
    make_with_functions (infoOf exStruct6) false =
      Except.ok
        [⟨"with_a_contents", "a", AccessorKind.withContents⟩,
         ⟨"with_c", "c", AccessorKind.withRef⟩,
         ⟨"with_c_mut", "c", AccessorKind.withMut⟩] ∧
    ([⟨"with_a_contents", "a", AccessorKind.withContents⟩,
      ⟨"with_c", "c", AccessorKind.withRef⟩,
      ⟨"with_c_mut", "c", AccessorKind.withMut⟩] : List Accessor) =
      ((infoOf exStruct6).map accessors_for).join :=
  ⟨rfl, rfl,
   c6_accessor_surface (infoOf exStruct6) false
     [⟨"with_a_contents", "a", AccessorKind.withContents⟩,
      ⟨"with_c", "c", AccessorKind.withRef⟩,
      ⟨"with_c_mut", "c", AccessorKind.withMut⟩] rfl⟩

theorem make_into_heads_loop_eq :
    ∀ (l : List (Nat × StructFieldInfo)),
      make_into_heads_loop l =
        ⟨(l.filter (fun p => p.2.borrows.isEmpty)).map (fun p => (p.2.name, p.2.typ)),
         l.map intoHeadsStepFor,
         (l.filter (fun p => p.2.borrows.isEmpty)).map (fun p => (p.1, p.2.name))⟩ := by
  intro l
  induction l with
  | nil => rfl
  | cons p rest ih =>
    obtain ⟨i, f⟩ := p
    by_cases hc : f.borrows.isEmpty
    · simp [make_into_heads_loop, ih, intoHeadsStepFor, hc]
    · simp [make_into_heads_loop, ih, intoHeadsStepFor, hc]

theorem steps_filterMap_drop :
    ∀ (l : List (Nat × StructFieldInfo)),
      (l.map intoHeadsStepFor).filterMap dropName
        = (l.filter (fun p => !p.2.borrows.isEmpty)).map (fun p => (p.1, p.2.name)) := by
  intro l
  induction l with
  | nil => rfl
  | cons p rest ih =>
    obtain ⟨i, f⟩ := p
    by_cases hc : f.borrows.isEmpty
    · simp [intoHeadsStepFor, dropName, hc, ih]
    · simp [intoHeadsStepFor, dropName, hc, ih]

/-- C7: the generated into_heads drops exactly the fields with a
non-empty dependency list, in reverse declaration order (in particular
every dependent field is processed before each of its dependency
targets), and returns by value exactly the fields with an empty
dependency list. -/
theorem c7_into_heads :
    ∀ (s : ItemStruct) (actual : ActualStruct) (info : List StructFieldInfo),
      create_actual_struct s = Except.ok (actual, info) →
      (make_into_heads info).returned
          = ((info.enum.filter (fun p => p.2.borrows.isEmpty)).map
              (fun p => (p.1, p.2.name))).reverse ∧
      (make_into_heads info).steps.filterMap dropName
          = ((info.enum.filter (fun p => !p.2.borrows.isEmpty)).map
              (fun p => (p.1, p.2.name))).reverse ∧
      (∀ (i : Nat) (f : StructFieldInfo) (b : BorrowRequest),
        info.get? i = some f → b ∈ f.borrows →
        List.Sublist
          [intoHeadsStepFor (i, f), intoHeadsStepFor (b.index, getN info b.index)]
          (make_into_heads info).steps) := by
  intro s actual info h
  have hedges : ∀ (i : Nat) (f : StructFieldInfo), info.get? i = some f →
      ∀ b ∈ f.borrows, b.index < i := by
    intro i f hf b hb
    obtain ⟨fields, _, hproc, _, _, _⟩ := create_actual_struct_ok s actual info h
    refine process_fields_loop_edges fields [] info hproc ?_ i f hf b hb
    intro i2 f2 hf2
    simp at hf2
  refine ⟨?_, ?_, ?_⟩
  · rw [make_into_heads, make_into_heads_loop_eq]
    dsimp only []
    rw [List.filter_reverse, List.map_reverse]
  · rw [make_into_heads, make_into_heads_loop_eq]
    dsimp only []
    rw [steps_filterMap_drop, List.filter_reverse, List.map_reverse]
  · intro i f b hf hb
    rw [make_into_heads, make_into_heads_loop_eq]
    dsimp only []
    have hti : b.index < i := hedges i f hf b hb
    have hilen : i < info.length := (List.get?_eq_some.mp hf).1
    have hlen : info.enum.length = info.length := List.enum_length
    have hgt : info.get? b.index = some (getN info b.index) :=
      get?_of_getN info b.index (by omega)
    have h1 : (info.enum.reverse.map intoHeadsStepFor).get? (info.length - 1 - i)
        = some (intoHeadsStepFor (i, f)) := by
      rw [List.get?_map, List.get?_reverse (by omega : info.length - 1 - i < info.enum.length)]
      rw [hlen]
      have : info.length - 1 - (info.length - 1 - i) = i := by omega
      rw [this, List.enum_get?, hf]
      rfl
    have h2 : (info.enum.reverse.map intoHeadsStepFor).get? (info.length - 1 - b.index)
        = some (intoHeadsStepFor (b.index, getN info b.index)) := by
      rw [List.get?_map, List.get?_reverse
        (by omega : info.length - 1 - b.index < info.enum.length)]
      rw [hlen]
      have : info.length - 1 - (info.length - 1 - b.index) = b.index := by omega
      rw [this, List.enum_get?, hgt]
      rfl
    exact sublist_pair_of_get? _ _ _ _ _ (by omega) h1 h2

/-- Witness for C7 at exStruct1: the body moves c and a out and drops b,
in reverse declaration order, and the drop of b precedes the release of
its dependency target a. -/
theorem c7_into_heads_witness :
    (make_into_heads (infoOf exStruct1)).returned
        = (((infoOf exStruct1).enum.filter (fun p => p.2.borrows.isEmpty)).map
            (fun p => (p.1, p.2.name))).reverse ∧
    List.Sublist
      [intoHeadsStepFor (1, getN (infoOf exStruct1) 1),
       intoHeadsStepFor (0, getN (infoOf exStruct1) 0)]
      (make_into_heads (infoOf exStruct1)).steps :=
  ⟨(c7_into_heads exStruct1 (actualOf exStruct1) (infoOf exStruct1) rfl).1,
   (c7_into_heads exStruct1 (actualOf exStruct1) (infoOf exStruct1) rfl).2.2 1
     (getN (infoOf exStruct1) 1) ⟨0, false⟩ rfl (by decide)⟩

/-- C10: a dependency declaration whose final token is a dangling mut
marker is accepted without any diagnostic; the marker creates no edge, a
field annotated with only the marker keeps an empty dependency list, the
schema is accepted, and the field is treated as a head field (it is
returned by the heads extraction). -/
theorem c10_dangling_mut_accepted :
    handle_borrows_attr exFieldInfoA [AttrTok.group [BorrowToken.ident "mut"]]
      = Except.ok (exFieldInfoA, []) ∧
    handle_borrows_attr exFieldInfoA
        [AttrTok.group [BorrowToken.ident "a", BorrowToken.comma, BorrowToken.ident "mut"]]
      = Except.ok (exFieldInfoA1, [⟨0, false⟩]) ∧
    acceptedB exStruct10 = true ∧
    (getN (infoOf exStruct10) 2).borrows = [] ∧
    (2, "c") ∈ (make_into_heads (infoOf exStruct10)).returned :=
  ⟨rfl, rfl, rfl, rfl, by decide⟩

theorem headsRecover_eq [Inhabited V] :
    ∀ (pairs : List (StructFieldInfo × TryArg V E)) (j : Nat) (storage : List V),
      (∀ (i : Nat) (f : StructFieldInfo) (a : TryArg V E),
        pairs.get? i = some (f, a) → f.borrows.isEmpty = true → j + i < storage.length →
        getN storage (j + i) = a.plainVal) →
      headsRecover storage j pairs = heads_of pairs := by
  intro pairs
  induction pairs with
  | nil => intro j storage _; rfl
  | cons p rest ih =>
    intro j storage hinv
    obtain ⟨f, a⟩ := p
    have hshift : ∀ (i : Nat) (f2 : StructFieldInfo) (a2 : TryArg V E),
        rest.get? i = some (f2, a2) → f2.borrows.isEmpty = true →
        (j + 1) + i < storage.length → getN storage ((j + 1) + i) = a2.plainVal := by
      intro i f2 a2 hg hh hl
      have heq : (j + 1) + i = j + (i + 1) := by omega
      rw [heq]
      exact hinv (i + 1) f2 a2 hg hh (by omega)
    have hrec := ih (j + 1) storage hshift
    by_cases hc : f.borrows.isEmpty
    · have hval : (if j < storage.length then getN storage j else a.plainVal)
          = a.plainVal := by
        by_cases hj : j < storage.length
        · rw [if_pos hj]
          have := hinv 0 f a rfl hc (by omega)
          simpa using this
        · rw [if_neg hj]
      simp only [headsRecover]
      rw [if_pos hc, hval, hrec]
      unfold heads_of
      rw [List.filter_cons, if_pos (by simpa using hc)]
      rfl
    · simp only [headsRecover]
      rw [if_neg hc, hrec]
      unfold heads_of
      rw [List.filter_cons, if_neg (by simpa using hc)]

theorem tnorLoop_error_heads [Inhabited V] :
    ∀ (rest allPairs : List (StructFieldInfo × TryArg V E))
      (storage : List V) (acc : List CEv) (e : E) (heads : List (String × V)),
      rest = allPairs.drop storage.length →
      (∀ (i : Nat) (f : StructFieldInfo) (a : TryArg V E),
        allPairs.get? i = some (f, a) → f.borrows.isEmpty = true → i < storage.length →
        getN storage i = a.plainVal) →
      (tnorLoop allPairs rest storage acc).2 = Except.error (e, heads) →
      heads = heads_of allPairs := by
  intro rest
  induction rest with
  | nil =>
    intro all storage acc e heads _ _ h
    simp [tnorLoop] at h
  | cons p rest ih =>
    intro all storage acc e heads hdrop hinv h
    obtain ⟨f, a⟩ := p
    have hget : all.get? storage.length = some (f, a) := by
      have h0 := List.get?_drop all storage.length 0
      rw [← hdrop] at h0
      simpa using h0.symm
    have hdrop2 : rest = all.drop (storage.length + 1) := by
      have h2 : (all.drop storage.length).tail = all.drop (storage.length + 1) := by
        rw [← List.drop_drop]
        simp [List.drop_one]
      rw [← hdrop] at h2
      simpa using h2
    simp only [tnorLoop] at h
    by_cases hc : f.borrows.isEmpty
    · rw [if_pos hc] at h
      refine ih all (storage ++ [a.plainVal]) _ e heads ?_ ?_ h
      · rw [hdrop2]
        simp
      · intro i f2 a2 hg hh hl
        rcases Nat.lt_or_ge i storage.length with hi | hi
        · rw [getN_append_lt _ _ _ hi]
          exact hinv i f2 a2 hg hh hi
        · have hieq : i = storage.length := by
            simp at hl
            omega
          subst hieq
          rw [hget] at hg
          obtain ⟨rfl, rfl⟩ : f2 = f ∧ a2 = a := by
            injection hg with h2
            exact ⟨congrArg Prod.fst h2.symm, congrArg Prod.snd h2.symm⟩
          rw [getN_append_len]
    · rw [if_neg hc] at h
      match hb : a.builderFn (refsFor storage f.borrows) with
      | Except.ok v =>
        rw [hb] at h
        refine ih all (storage ++ [v]) _ e heads ?_ ?_ h
        · rw [hdrop2]
          simp
        · intro i f2 a2 hg hh hl
          rcases Nat.lt_or_ge i storage.length with hi | hi
          · rw [getN_append_lt _ _ _ hi]
            exact hinv i f2 a2 hg hh hi
          · have hieq : i = storage.length := by
              simp at hl
              omega
            subst hieq
            rw [hget] at hg
            obtain ⟨rfl, rfl⟩ : f2 = f ∧ a2 = a := by
              injection hg with h2
              exact ⟨congrArg Prod.fst h2.symm, congrArg Prod.snd h2.symm⟩
            rw [hh] at hc
            simp at hc
      | Except.error e2 =>
        rw [hb] at h
        dsimp only [] at h
        injection h with h2
        obtain ⟨rfl, rfl⟩ : e2 = e ∧ headsRecover storage 0 all = heads := by
          injection h2 with h3 h4
          exact ⟨h3, h4⟩
        refine headsRecover_eq all 0 storage ?_
        intro i f2 a2 hg hh hl
        have h0 : (0 : Nat) + i = i := by omega
        rw [h0]
        rw [h0] at hl
        exact hinv i f2 a2 hg hh hl

/-- C1 (amended): whenever the generated try_new_or_recover returns an
error, the recovered head set holds every field with an empty dependency
list of the whole schema, each paired with its plain argument value: the
heads materialized before the failing field are read back from storage,
and the heads declared after the failing field are moved straight from
the unconsumed arguments, so the recovered set is all heads, not only
those declared before the failure. -/
theorem c1_recovered_heads (V E : Type) [Inhabited V] :
    ∀ (fields : List StructFieldInfo) (args : List (TryArg V E)) (e : E)
      (heads : List (String × V)),
      try_new_or_recover fields args = Except.error (e, heads) →
      heads = heads_of (fields.zip args) := by
  intro fields args e heads h
  refine tnorLoop_error_heads (fields.zip args) (fields.zip args) [] [] e heads ?_ ?_ h
  · simp
  · intro i f a _ _ hl
    simp at hl

/-- Counterexample to C1 as stated: in the accepted schema exStruct1 the
builder of field b (declaration index 1) fails, and the recovered head
set also contains the head field c declared after the failing field, so
it differs from the set of heads declared before index 1. -/
theorem c1_heads_counterexample :
    acceptedB exStruct1 = true ∧
    try_new_or_recover (infoOf exStruct1) exArgs1
      = Except.error (9, [("a", 1), ("c", 7)]) ∧
    heads_declared_before ((infoOf exStruct1).zip exArgs1) 1 = [("a", 1)] ∧
    (("c", 7) ∈ [(("a" : String), (1 : Nat)), ("c", 7)]) ∧
    ([(("a" : String), (1 : Nat)), ("c", 7)] ≠ [("a", 1)]) :=
  ⟨rfl, rfl, rfl, by decide, by decide⟩

/-- Witness for C1 at exStruct1 with the failing argument list. -/
theorem c1_recovered_heads_witness :
    ([(("a" : String), (1 : Nat)), ("c", 7)] : List (String × Nat))
      = heads_of ((infoOf exStruct1).zip exArgs1) :=
  c1_recovered_heads Nat Nat (infoOf exStruct1) exArgs1 9 [("a", 1), ("c", 7)] rfl

/-- C2 evaluated at the failing input: in the accepted schema exStruct2
the builder of b succeeds and the builder of c fails, so field b (slot 1)
is materialized before the failure; the trace of the generated failure
path contains no release of slot 1 (its only release events are the
ptr::read recoveries of the head slots, here slot 0): the early return
performs no drop and the MaybeUninit storage has no drop glue, so the
materialized value of b is leaked instead of being released exactly
once. -/
theorem c2_materialized_field_leaked :
    acceptedB exStruct2 = true ∧
    try_new_or_recover_trace (infoOf exStruct2) exArgs2
      = [CEv.materialize 0, CEv.invoke 1, CEv.materialize 1,
         CEv.invoke 2, CEv.readOut 0] ∧
    CEv.materialize 1 ∈ try_new_or_recover_trace (infoOf exStruct2) exArgs2 ∧
    releaseCount (try_new_or_recover_trace (infoOf exStruct2) exArgs2) 1 = 0 ∧
    releaseCount (try_new_or_recover_trace (infoOf exStruct2) exArgs2) 0 = 1 :=
  ⟨rfl, rfl, by decide, rfl, rfl⟩

theorem newLoop_trace_filter (V : Type) [Inhabited V] :
    ∀ (pairs : List (StructFieldInfo × EagerArg V)) (storage : List V) (acc : List CEv),
      (newLoop pairs storage acc).1.filter isMaterialize
        = acc.filter isMaterialize
          ++ (List.range' storage.length pairs.length).map CEv.materialize := by
  intro pairs
  induction pairs with
  | nil =>
    intro storage acc
    simp [newLoop]
  | cons p rest ih =>
    intro storage acc
    obtain ⟨f, a⟩ := p
    by_cases hc : f.borrows.isEmpty
    · rw [show (newLoop ((f, a) :: rest) storage acc)
          = newLoop rest (storage ++ [a.plainVal])
              (acc ++ [CEv.materialize storage.length]) from by
        simp only [newLoop]
        rw [if_pos hc]]
      rw [ih]
      rw [show (storage ++ [a.plainVal]).length = storage.length + 1 by simp]
      rw [show (List.range' storage.length (((f, a) :: rest).length)).map CEv.materialize
          = CEv.materialize storage.length ::
              (List.range' (storage.length + 1) rest.length).map CEv.materialize from rfl]
      rw [List.filter_append]
      rw [show ([CEv.materialize storage.length].filter isMaterialize)
          = [CEv.materialize storage.length] from rfl]
      simp
    · rw [show (newLoop ((f, a) :: rest) storage acc)
          = newLoop rest (storage ++ [a.builderFn (refsFor storage f.borrows)])
              (acc ++ [CEv.invoke storage.length, CEv.materialize storage.length]) from by
        simp only [newLoop]
        rw [if_neg hc]]
      rw [ih]
      rw [show (storage ++ [a.builderFn (refsFor storage f.borrows)]).length
          = storage.length + 1 by simp]
      rw [show (List.range' storage.length (((f, a) :: rest).length)).map CEv.materialize
          = CEv.materialize storage.length ::
              (List.range' (storage.length + 1) rest.length).map CEv.materialize from rfl]
      rw [List.filter_append]
      rw [show ([CEv.invoke storage.length,
            CEv.materialize storage.length].filter isMaterialize)
          = [CEv.materialize storage.length] from rfl]
      simp

/-- C3: the emitted storage struct lists the fields in the exact reverse
of declaration order; the generated constructor materializes the fields
in declaration order (the materialize events of any run are exactly the
slot indices in increasing order); and consequently, in an accepted
schema, every dependency target is materialized before the field that
depends on it. -/
theorem c3_layout_and_order :
    (∀ (s : ItemStruct) (fields : List NamedField) (actual : ActualStruct)
      (info : List StructFieldInfo),
      s.fieldsShape = FieldsShape.named fields →
      create_actual_struct s = Except.ok (actual, info) →
      actual.fields.map Prod.fst
        = (fields.map (fun f => replaceThisName f.name)).reverse) ∧
    (∀ (V : Type) (iV : Inhabited V) (fields : List StructFieldInfo)
      (args : List (EagerArg V)),
      (new_constructor_trace fields args).filter isMaterialize
        = (List.range (fields.zip args).length).map CEv.materialize) ∧
    (∀ (V : Type) (iV : Inhabited V) (s : ItemStruct) (actual : ActualStruct)
      (info : List StructFieldInfo) (args : List (EagerArg V)) (i : Nat)
      (f : StructFieldInfo) (b : BorrowRequest),
      create_actual_struct s = Except.ok (actual, info) →
      info.get? i = some f → b ∈ f.borrows → i < (info.zip args).length →
      List.Sublist [CEv.materialize b.index, CEv.materialize i]
        (new_constructor_trace info args)) := by
  refine ⟨?_, ?_, ?_⟩
  · intro s fields actual info hshape h
    obtain ⟨fields2, hshape2, hproc, _, _, hact⟩ := create_actual_struct_ok s actual info h
    rw [hshape] at hshape2
    injection hshape2 with hf
    subst hf
    have hnt : info.map (fun f => (f.name, f.typ))
        = fields.map (fun f => (f.name, f.typ)) := by
      simpa using process_fields_loop_nameTyp fields [] info hproc
    have h1 : info.map (fun f => replaceThisName f.name)
        = fields.map (fun f => replaceThisName f.name) := by
      have e1 : info.map (fun f => replaceThisName f.name)
          = (info.map (fun f => (f.name, f.typ))).map (fun p => replaceThisName p.1) := by
        rw [List.map_map]
        rfl
      have e2 : fields.map (fun f => replaceThisName f.name)
          = (fields.map (fun f => (f.name, f.typ))).map (fun p => replaceThisName p.1) := by
        rw [List.map_map]
        rfl
      rw [e1, e2, hnt]
    rw [hact]
    dsimp only []
    rw [List.map_reverse, List.map_map]
    rw [show (Prod.fst ∘ (fun f => (replaceThisName f.name,
        replace_this_with_static f.typ.tokens)))
      = fun (f : StructFieldInfo) => replaceThisName f.name from rfl]
    rw [h1]
  · intro V iV fields args
    rw [new_constructor_trace, newLoop_trace_filter V (fields.zip args) [] []]
    rw [List.range_eq_range']
    rfl
  · intro V iV s actual info args i f b h hf hb hlen
    have hedges : b.index < i := by
      obtain ⟨fields, _, hproc, _, _, _⟩ := create_actual_struct_ok s actual info h
      refine process_fields_loop_edges fields [] info hproc ?_ i f hf b hb
      intro i2 f2 hf2
      simp at hf2
    have hfil : (new_constructor_trace info args).filter isMaterialize
        = (List.range (info.zip args).length).map CEv.materialize := by
      rw [new_constructor_trace, newLoop_trace_filter V (info.zip args) [] []]
      rw [List.range_eq_range']
      rfl
    have h1 : ((List.range (info.zip args).length).map CEv.materialize).get? b.index
        = some (CEv.materialize b.index) := by
      rw [List.get?_map, List.get?_range (by omega)]
      rfl
    have h2 : ((List.range (info.zip args).length).map CEv.materialize).get? i
        = some (CEv.materialize i) := by
      rw [List.get?_map, List.get?_range (by omega)]
      rfl
    have hsub := sublist_pair_of_get? _ _ _ _ _ hedges h1 h2
    rw [← hfil] at hsub
    exact hsub.trans (List.filter_sublist _)

/-- Witness for C3 at exStruct1 with the eager argument list. -/
theorem c3_layout_and_order_witness :
    (actualOf exStruct1).fields.map Prod.fst
      = (exFields1.map (fun f => replaceThisName f.name)).reverse ∧
    (new_constructor_trace (infoOf exStruct1) exEagerArgs1).filter isMaterialize
      = (List.range ((infoOf exStruct1).zip exEagerArgs1).length).map CEv.materialize ∧
    List.Sublist [CEv.materialize 0, CEv.materialize 1]
      (new_constructor_trace (infoOf exStruct1) exEagerArgs1) :=
  ⟨c3_layout_and_order.1 exStruct1 exFields1 (actualOf exStruct1) (infoOf exStruct1)
     rfl rfl,
   c3_layout_and_order.2.1 Nat inferInstance (infoOf exStruct1) exEagerArgs1,
   c3_layout_and_order.2.2 Nat inferInstance exStruct1 (actualOf exStruct1)
     (infoOf exStruct1) exEagerArgs1 1 (getN (infoOf exStruct1) 1) ⟨0, false⟩
     rfl rfl (by decide) (by decide)⟩
